/-
Verification of the station-line derivation pipeline of `build-station-lines.mjs`.

The script streams four GTFS tables (stops, routes, trips, stop_times), builds
three reference indices, aggregates the set of routes observed per station over
the stop-time table, and emits a list of `{id, name, lines}` records with the
line codes deduplicated and naturally sorted and the stations sorted by name.

Modelling conventions (shallow embedding):
  * a CSV row is a structure of string fields; a missing field is the empty
    string (JavaScript falsiness of `undefined` and `""` coincide on the
    checks the script performs);
  * a JavaScript `Map` is an insertion-ordered association list with
    overwrite-in-place semantics (`mset`), a `Set` an insertion-ordered
    duplicate-free list (`addRoute` appends only when absent);
  * `String#localeCompare` with `numeric: true, sensitivity: "base"` is
    modelled by `naturalCompare`: strings are tokenized into maximal digit
    runs (compared by numeric value) and single non-digit characters
    (lowercased, compared by code point), digit runs ordering before
    characters; with only `sensitivity: "base"` it is modelled by the
    lowercased code-point comparison `ciCompare`;
  * `Array#sort` (stable in JavaScript) is modelled by `List.insertionSort`,
    which is stable;
  * the file-existence pre-flight and exit codes are modelled by `run`,
    which takes the list of files present in the source directory.
-/
import Mathlib

namespace MtaProxy

/-! ### Generic three-way comparison machinery -/

theorem swap_eq_eq (o : Ordering) : o.swap = .eq ↔ o = .eq := by cases o <;> decide

theorem swap_eq_lt (o : Ordering) : o.swap = .lt ↔ o = .gt := by cases o <;> decide

theorem swap_eq_gt (o : Ordering) : o.swap = .gt ↔ o = .lt := by cases o <;> decide

/-- Three-way comparison on `Nat` used as the primitive of both comparators. -/
def cmpNat (a b : Nat) : Ordering :=
  if a < b then .lt else if b < a then .gt else .eq

theorem cmpNat_swap (a b : Nat) : cmpNat a b = (cmpNat b a).swap := by
  rcases Nat.lt_trichotomy a b with h | h | h
  · simp [cmpNat, h, Nat.lt_asymm h, Ordering.swap]
  · subst h; simp [cmpNat, Nat.lt_irrefl, Ordering.swap]
  · simp [cmpNat, h, Nat.lt_asymm h, Ordering.swap]

theorem cmpNat_eq_iff (a b : Nat) : cmpNat a b = .eq ↔ a = b := by
  unfold cmpNat
  by_cases h1 : a < b
  · simp [h1]; omega
  · by_cases h2 : b < a <;> simp [h1, h2] <;> omega

theorem cmpNat_lt_iff (a b : Nat) : cmpNat a b = .lt ↔ a < b := by
  unfold cmpNat
  by_cases h1 : a < b
  · simp [h1]
  · by_cases h2 : b < a <;> simp [h1, h2]

/-- Lexicographic extension of a comparator to lists. -/
def cmpLex (cmp : α → α → Ordering) : List α → List α → Ordering
  | [], [] => .eq
  | [], _ :: _ => .lt
  | _ :: _, [] => .gt
  | a :: as, b :: bs =>
    if cmp a b = .eq then cmpLex cmp as bs else cmp a b

/-- A comparator is well behaved when it is swap-oriented, reflexive at `eq`,
`eq` is compatible with comparison, and `lt` is transitive. -/
structure LawfulCmpProps (cmp : α → α → Ordering) : Prop where
  swap : ∀ a b, cmp a b = (cmp b a).swap
  eq_refl : ∀ a, cmp a a = .eq
  eq_congr_left : ∀ a b c, cmp a b = .eq → cmp a c = cmp b c
  lt_trans : ∀ a b c, cmp a b = .lt → cmp b c = .lt → cmp a c = .lt

theorem cmp_eq_iff {cmp : α → α → Ordering} (h : LawfulCmpProps cmp) (a b : α) :
    cmp a b = .eq ↔ cmp b a = .eq := by
  rw [h.swap a b]; exact swap_eq_eq _

theorem cmp_gt_iff {cmp : α → α → Ordering} (h : LawfulCmpProps cmp) (a b : α) :
    cmp a b = .gt ↔ cmp b a = .lt := by
  rw [h.swap a b]; exact swap_eq_gt _

theorem cmp_eq_congr_right {cmp : α → α → Ordering} (h : LawfulCmpProps cmp)
    (a b c : α) (hbc : cmp b c = .eq) : cmp a b = cmp a c := by
  have h1 : cmp b a = cmp c a := h.eq_congr_left b c a hbc
  rw [h.swap a b, h.swap a c, h1]

theorem cmpNat_lawful : LawfulCmpProps cmpNat where
  swap := cmpNat_swap
  eq_refl := fun a => (cmpNat_eq_iff a a).mpr rfl
  eq_congr_left := fun a b c h => by
    have hab : a = b := (cmpNat_eq_iff a b).mp h
    subst hab; rfl
  lt_trans := fun a b c h1 h2 => by
    rw [cmpNat_lt_iff] at h1 h2 ⊢
    omega

theorem cmpLex_swap {cmp : α → α → Ordering} (h : LawfulCmpProps cmp) :
    ∀ a b : List α, cmpLex cmp a b = (cmpLex cmp b a).swap := by
  intro a
  induction a with
  | nil => intro b; cases b <;> rfl
  | cons x xs ih =>
    intro b
    cases b with
    | nil => rfl
    | cons y ys =>
      simp only [cmpLex]
      by_cases hxy : cmp x y = .eq
      · have hyx : cmp y x = .eq := (cmp_eq_iff h x y).mp hxy
        simp [hxy, hyx, ih ys]
      · have hyx : ¬ cmp y x = .eq := fun hq => hxy ((cmp_eq_iff h y x).mp hq)
        simp [hxy, hyx, h.swap x y, swap_eq_eq]

theorem cmpLex_eq_refl {cmp : α → α → Ordering} (h : LawfulCmpProps cmp) :
    ∀ a : List α, cmpLex cmp a a = .eq := by
  intro a
  induction a with
  | nil => rfl
  | cons x xs ih => simp [cmpLex, h.eq_refl x, ih]

theorem cmpLex_eq_congr_left {cmp : α → α → Ordering} (h : LawfulCmpProps cmp) :
    ∀ a b c : List α, cmpLex cmp a b = .eq → cmpLex cmp a c = cmpLex cmp b c := by
  intro a
  induction a with
  | nil =>
    intro b c hab
    cases b with
    | nil => rfl
    | cons y ys => simp [cmpLex] at hab
  | cons x xs ih =>
    intro b c hab
    cases b with
    | nil => simp [cmpLex] at hab
    | cons y ys =>
      simp only [cmpLex] at hab
      by_cases hxy : cmp x y = .eq
      · rw [if_pos hxy] at hab
        cases c with
        | nil => rfl
        | cons z zs =>
          simp only [cmpLex]
          rw [h.eq_congr_left x y z hxy]
          by_cases hyz : cmp y z = .eq
          · simp [hyz, ih ys zs hab]
          · simp [hyz]
      · rw [if_neg hxy] at hab
        exact absurd hab hxy

theorem cmpLex_lt_trans {cmp : α → α → Ordering} (h : LawfulCmpProps cmp) :
    ∀ a b c : List α, cmpLex cmp a b = .lt → cmpLex cmp b c = .lt →
      cmpLex cmp a c = .lt := by
  intro a
  induction a with
  | nil =>
    intro b c hab hbc
    cases b with
    | nil => exact hbc
    | cons y ys =>
      cases c with
      | nil => simp [cmpLex] at hbc
      | cons z zs => rfl
  | cons x xs ih =>
    intro b c hab hbc
    cases b with
    | nil => simp [cmpLex] at hab
    | cons y ys =>
      cases c with
      | nil => simp [cmpLex] at hbc
      | cons z zs =>
        simp only [cmpLex] at hab hbc ⊢
        by_cases hxy : cmp x y = .eq
        · rw [if_pos hxy] at hab
          rw [h.eq_congr_left x y z hxy]
          by_cases hyz : cmp y z = .eq
          · rw [if_pos hyz] at hbc
            simp [hyz, ih ys zs hab hbc]
          · rw [if_neg hyz] at hbc
            simp [hyz, hbc]
        · rw [if_neg hxy] at hab
          by_cases hyz : cmp y z = .eq
          · have hxz : cmp x z = cmp x y := (cmp_eq_congr_right h x y z hyz).symm
            rw [hxz, hab]
            simp [hab] at hxy ⊢
          · rw [if_neg hyz] at hbc
            have hxz : cmp x z = .lt := h.lt_trans x y z hab hbc
            simp [hxz]

theorem cmpLex_lawful {cmp : α → α → Ordering} (h : LawfulCmpProps cmp) :
    LawfulCmpProps (cmpLex cmp) where
  swap := cmpLex_swap h
  eq_refl := cmpLex_eq_refl h
  eq_congr_left := cmpLex_eq_congr_left h
  lt_trans := cmpLex_lt_trans h

/-- `le` in the sense of a comparator: not `gt`. -/
def cmpLe (cmp : α → α → Ordering) (a b : α) : Prop := cmp a b ≠ .gt

theorem cmpLe_total {cmp : α → α → Ordering} (h : LawfulCmpProps cmp) (a b : α) :
    cmpLe cmp a b ∨ cmpLe cmp b a := by
  unfold cmpLe
  by_cases hab : cmp a b = .gt
  · right
    intro hba
    have h1 : cmp b a = .lt := (cmp_gt_iff h a b).mp hab
    rw [h1] at hba
    cases hba
  · left; exact hab

theorem cmpLe_trans {cmp : α → α → Ordering} (h : LawfulCmpProps cmp) (a b c : α)
    (hab : cmpLe cmp a b) (hbc : cmpLe cmp b c) : cmpLe cmp a c := by
  unfold cmpLe at *
  intro hac
  cases hab' : cmp a b with
  | gt => exact hab hab'
  | eq =>
    have h1 : cmp a c = cmp b c := h.eq_congr_left a b c hab'
    rw [hac] at h1
    exact hbc h1.symm
  | lt =>
    cases hbc' : cmp b c with
    | gt => exact hbc hbc'
    | eq =>
      have h1 : cmp a b = cmp a c := cmp_eq_congr_right h a b c hbc'
      rw [hab', hac] at h1
      cases h1
    | lt =>
      have h1 : cmp a c = .lt := h.lt_trans a b c hab' hbc'
      rw [hac] at h1
      cases h1

/-! ### The two comparators used by the script

`localeCompare(undefined, { numeric: true, sensitivity: "base" })` on line
codes, and `localeCompare(undefined, { sensitivity: "base" })` on station
names. -/

/-- A token of the natural comparison: either a maximal digit run (by value)
or a single non-digit character (lowercased code point). -/
inductive NatTok where
  | num (n : Nat)
  | ch (c : Nat)
deriving DecidableEq, Repr

/-- One step of the tokenizer: digits extend a pending numeric run. The
accumulator is in reverse order. -/
def tokStep (acc : List NatTok) (c : Char) : List NatTok :=
  if c.isDigit then
    match acc with
    | NatTok.num n :: rest => NatTok.num (n * 10 + (c.toNat - 48)) :: rest
    | _ => NatTok.num (c.toNat - 48) :: acc
  else NatTok.ch c.toLower.toNat :: acc

/-- Tokenize a string into digit runs and lowercased characters. -/
def tokens (s : String) : List NatTok :=
  (s.data.foldl tokStep []).reverse

/-- Rank/value key of a token: digit runs order before characters. -/
def tokKey : NatTok → Nat × Nat
  | .num n => (0, n)
  | .ch c => (1, c)

/-- Comparison of tokens: by rank, then by value. -/
def cmpTok (a b : NatTok) : Ordering :=
  if cmpNat (tokKey a).1 (tokKey b).1 = .eq then cmpNat (tokKey a).2 (tokKey b).2
  else cmpNat (tokKey a).1 (tokKey b).1

theorem cmpTok_lawful : LawfulCmpProps cmpTok := by
  constructor
  · intro a b
    unfold cmpTok
    by_cases h1 : cmpNat (tokKey a).1 (tokKey b).1 = .eq
    · have h2 : cmpNat (tokKey b).1 (tokKey a).1 = .eq :=
        (cmp_eq_iff cmpNat_lawful _ _).mp h1
      simp [h1, h2, cmpNat_swap (tokKey a).2 (tokKey b).2]
    · have h2 : ¬ cmpNat (tokKey b).1 (tokKey a).1 = .eq :=
        fun hq => h1 ((cmp_eq_iff cmpNat_lawful _ _).mp hq)
      simp [h1, h2, cmpNat_swap (tokKey a).1 (tokKey b).1, swap_eq_eq]
  · intro a
    simp [cmpTok, cmpNat_lawful.eq_refl]
  · intro a b c hab
    unfold cmpTok at hab ⊢
    by_cases h1 : cmpNat (tokKey a).1 (tokKey b).1 = .eq
    · rw [if_pos h1] at hab
      have e1 : (tokKey a).1 = (tokKey b).1 := (cmpNat_eq_iff _ _).mp h1
      have e2 : (tokKey a).2 = (tokKey b).2 := (cmpNat_eq_iff _ _).mp hab
      rw [e1, e2]
    · rw [if_neg h1] at hab
      exact absurd hab h1
  · intro a b c hab hbc
    unfold cmpTok at hab hbc ⊢
    by_cases h1 : cmpNat (tokKey a).1 (tokKey b).1 = .eq
    · rw [if_pos h1] at hab
      have e1 : (tokKey a).1 = (tokKey b).1 := (cmpNat_eq_iff _ _).mp h1
      by_cases h2 : cmpNat (tokKey b).1 (tokKey c).1 = .eq
      · rw [if_pos h2] at hbc
        have e2 : (tokKey b).1 = (tokKey c).1 := (cmpNat_eq_iff _ _).mp h2
        have h3 : cmpNat (tokKey a).1 (tokKey c).1 = .eq := by
          rw [cmpNat_eq_iff]; omega
        rw [if_pos h3]
        exact cmpNat_lawful.lt_trans _ _ _ hab hbc
      · rw [if_neg h2] at hbc
        have h3 : ¬ cmpNat (tokKey a).1 (tokKey c).1 = .eq := by
          rw [cmpNat_eq_iff] at h2 ⊢; omega
        rw [if_neg h3, e1]
        exact hbc
    · rw [if_neg h1] at hab
      by_cases h2 : cmpNat (tokKey b).1 (tokKey c).1 = .eq
      · rw [if_pos h2] at hbc
        have e2 : (tokKey b).1 = (tokKey c).1 := (cmpNat_eq_iff _ _).mp h2
        have h3 : ¬ cmpNat (tokKey a).1 (tokKey c).1 = .eq := by
          rw [cmpNat_eq_iff] at h1 ⊢; omega
        rw [if_neg h3, ← e2]
        exact hab
      · rw [if_neg h2] at hbc
        have h3 : cmpNat (tokKey a).1 (tokKey c).1 = .lt :=
          cmpNat_lawful.lt_trans _ _ _ hab hbc
        have h4 : ¬ cmpNat (tokKey a).1 (tokKey c).1 = .eq := by
          rw [h3]; intro hq; cases hq
        rw [if_neg h4]
        exact h3

/-- Model of `a.localeCompare(b, undefined, { numeric: true, sensitivity:
"base" })`: case-insensitive with digit runs compared numerically. -/
def naturalCompare (a b : String) : Ordering :=
  cmpLex cmpTok (tokens a) (tokens b)

theorem naturalCompare_lawful : LawfulCmpProps fun a b => naturalCompare a b := by
  have h := cmpLex_lawful cmpTok_lawful
  exact ⟨fun a b => h.swap _ _, fun a => h.eq_refl _,
    fun a b c hab => h.eq_congr_left _ _ _ hab,
    fun a b c hab hbc => h.lt_trans _ _ _ hab hbc⟩

/-- The ordering relation the line-code sort uses (comparator result ≤ 0). -/
def natLe (a b : String) : Prop := naturalCompare a b ≠ .gt

instance : DecidableRel natLe := fun a b =>
  inferInstanceAs (Decidable (naturalCompare a b ≠ .gt))

instance : IsTotal String natLe :=
  ⟨fun a b => cmpLe_total naturalCompare_lawful a b⟩

instance : IsTrans String natLe :=
  ⟨fun a b c => cmpLe_trans naturalCompare_lawful a b c⟩

/-- Lowercased code points of a string. -/
def ciKey (s : String) : List Nat :=
  s.data.map (fun c => c.toLower.toNat)

/-- Model of `a.localeCompare(b, undefined, { sensitivity: "base" })`:
case-insensitive code-point comparison. -/
def ciCompare (a b : String) : Ordering :=
  cmpLex cmpNat (ciKey a) (ciKey b)

theorem ciCompare_lawful : LawfulCmpProps fun a b => ciCompare a b := by
  have h := cmpLex_lawful cmpNat_lawful
  exact ⟨fun a b => h.swap _ _, fun a => h.eq_refl _,
    fun a b c hab => h.eq_congr_left _ _ _ hab,
    fun a b c hab hbc => h.lt_trans _ _ _ hab hbc⟩

/-- The ordering relation the station sort uses (comparator result ≤ 0). -/
def ciLe (a b : String) : Prop := ciCompare a b ≠ .gt

instance : DecidableRel ciLe := fun a b =>
  inferInstanceAs (Decidable (ciCompare a b ≠ .gt))

instance : IsTotal String ciLe :=
  ⟨fun a b => cmpLe_total ciCompare_lawful a b⟩

instance : IsTrans String ciLe :=
  ⟨fun a b c => cmpLe_trans ciCompare_lawful a b c⟩

/-! ### JavaScript `Map` and `Set` model -/

/-- `Map#set`: overwrite in place if the key is present, else append. -/
def mset (m : List (String × β)) (k : String) (v : β) : List (String × β) :=
  if m.any (fun p => p.1 == k) then
    m.map (fun p => if p.1 == k then (k, v) else p)
  else m ++ [(k, v)]

/-- `Map#get`: value of the first (hence only) entry with the key. -/
def mget? (m : List (String × β)) (k : String) : Option β :=
  (m.find? (fun p => p.1 == k)).map (·.2)

/-- Keys of a map, in insertion order. -/
def mkeys (m : List (String × β)) : List String := m.map (·.1)

theorem mem_mset {m : List (String × β)} {k : String} {v : β} {p : String × β}
    (hp : p ∈ mset m k v) : p ∈ m ∨ p = (k, v) := by
  unfold mset at hp
  by_cases hc : m.any (fun p => p.1 == k)
  · rw [if_pos hc] at hp
    rcases List.mem_map.mp hp with ⟨q, hq, hqe⟩
    by_cases hqk : q.1 == k
    · right; rw [if_pos hqk] at hqe; exact hqe.symm
    · left; rw [if_neg hqk] at hqe; exact hqe ▸ hq
  · rw [if_neg hc] at hp
    rcases List.mem_append.mp hp with h | h
    · left; exact h
    · right; simpa using h

theorem find?_overwrite (k : String) (v : β) :
    ∀ m : List (String × β), m.any (fun p => p.1 == k) = true →
      (m.map (fun p => if p.1 == k then (k, v) else p)).find? (fun p => p.1 == k) =
        some (k, v) := by
  intro m
  induction m with
  | nil => intro h; cases h
  | cons q m ih =>
    intro h
    simp only [List.map_cons]
    by_cases hqk : (q.1 == k : Bool)
    · rw [if_pos hqk]
      exact List.find?_cons_of_pos _ (by simp)
    · rw [if_neg hqk]
      rw [List.find?_cons_of_neg (p := fun q : String × β => q.1 == k) _ hqk]
      apply ih
      rcases List.any_eq_true.mp h with ⟨p, hp, hpk⟩
      rcases List.mem_cons.mp hp with hq | hq
      · exact absurd (hq ▸ hpk) hqk
      · exact List.any_eq_true.mpr ⟨p, hq, hpk⟩

theorem find?_overwrite_ne (k k' : String) (v : β) (hne : k' ≠ k) :
    ∀ m : List (String × β),
      (m.map (fun p => if p.1 == k then (k, v) else p)).find? (fun p => p.1 == k') =
        m.find? (fun p => p.1 == k') := by
  intro m
  induction m with
  | nil => rfl
  | cons q m ih =>
    simp only [List.map_cons]
    by_cases hqk : (q.1 == k : Bool)
    · have hq1 : q.1 = k := by simpa using hqk
      rw [if_pos hqk]
      have h1 : ¬ ((k, v).1 == k' : Bool) := by
        simpa using fun hq => hne hq.symm
      have h2 : ¬ (q.1 == k' : Bool) := by
        rw [hq1]; simpa using fun hq => hne hq.symm
      rw [List.find?_cons_of_neg (p := fun q : String × β => q.1 == k') _ h1,
        List.find?_cons_of_neg (p := fun q : String × β => q.1 == k') _ h2, ih]
    · rw [if_neg hqk]
      by_cases hq : (q.1 == k' : Bool)
      · rw [List.find?_cons_of_pos (p := fun q : String × β => q.1 == k') _ hq,
          List.find?_cons_of_pos (p := fun q : String × β => q.1 == k') _ hq]
      · rw [List.find?_cons_of_neg (p := fun q : String × β => q.1 == k') _ hq,
          List.find?_cons_of_neg (p := fun q : String × β => q.1 == k') _ hq, ih]

theorem mget?_mset_self (m : List (String × β)) (k : String) (v : β) :
    mget? (mset m k v) k = some v := by
  unfold mset mget?
  by_cases hc : m.any (fun p => p.1 == k)
  · rw [if_pos hc, find?_overwrite k v m hc]
    rfl
  · rw [if_neg hc]
    have hnone : m.find? (fun p => p.1 == k) = none := by
      rw [List.find?_eq_none]
      intro p hp hpk
      exact hc (List.any_eq_true.mpr ⟨p, hp, hpk⟩)
    rw [List.find?_append, hnone]
    have : ([(k, v)].find? (fun p => p.1 == k)) = some (k, v) :=
      List.find?_cons_of_pos (p := fun q : String × β => q.1 == k) _ (by simp)
    rw [Option.none_or, this]
    rfl

theorem mget?_mset_ne (m : List (String × β)) (k k' : String) (v : β)
    (hne : k' ≠ k) : mget? (mset m k v) k' = mget? m k' := by
  unfold mset mget?
  by_cases hc : m.any (fun p => p.1 == k)
  · rw [if_pos hc, find?_overwrite_ne k k' v hne m]
  · rw [if_neg hc, List.find?_append]
    have h1 : ([(k, v)].find? (fun p => p.1 == k')) = none := by
      rw [List.find?_eq_none]
      intro p hp hpk
      have hpe : p = (k, v) := by simpa using hp
      subst hpe
      have hkk : k = k' := by simpa using hpk
      exact hne hkk.symm
    rw [h1]
    cases m.find? (fun p => p.1 == k') <;> rfl

theorem overwrite_fst (k : String) (v : β) (p : String × β) :
    (if (p.1 == k : Bool) then (k, v) else p).1 = p.1 := by
  by_cases hpk : (p.1 == k : Bool)
  · have : p.1 = k := by simpa using hpk
    rw [if_pos hpk, this]
  · rw [if_neg hpk]

theorem mkeys_mset (m : List (String × β)) (k : String) (v : β) :
    mkeys (mset m k v) = mkeys m ∨ mkeys (mset m k v) = mkeys m ++ [k] := by
  unfold mset mkeys
  by_cases hc : m.any (fun p => p.1 == k)
  · left
    rw [if_pos hc, List.map_map]
    apply List.map_congr_left
    intro p _
    exact overwrite_fst k v p
  · right
    rw [if_neg hc, List.map_append]
    rfl

theorem mkeys_mset_nodup (m : List (String × β)) (k : String) (v : β)
    (h : (mkeys m).Nodup) : (mkeys (mset m k v)).Nodup := by
  rcases mkeys_mset m k v with he | he
  · rw [he]; exact h
  · rw [he, List.nodup_append]
    refine ⟨h, by simp, ?_⟩
    intro a ha
    simp only [List.mem_singleton]
    intro hak
    unfold mkeys at ha
    rcases List.mem_map.mp ha with ⟨p, hp, hpk⟩
    have hc : m.any (fun q => q.1 == k) = true :=
      List.any_eq_true.mpr ⟨p, hp, by simp [hpk, hak]⟩
    unfold mset at he
    rw [if_pos hc] at he
    unfold mkeys at he
    have hlen := congrArg List.length he
    simp at hlen

theorem mget?_isSome_iff (m : List (String × β)) (k : String) :
    (mget? m k).isSome ↔ k ∈ mkeys m := by
  unfold mget? mkeys
  induction m with
  | nil => simp
  | cons p m ih =>
    by_cases hpk : p.1 = k
    · have hb : (p.1 == k : Bool) := by simpa using hpk
      rw [List.find?_cons_of_pos (p := fun q : String × β => q.1 == k) _ hb]
      simp [hpk]
    · have hb : ¬ (p.1 == k : Bool) := by simpa using hpk
      rw [List.find?_cons_of_neg (p := fun q : String × β => q.1 == k) _ hb]
      simp only [List.map_cons, List.mem_cons]
      rw [ih]
      constructor
      · exact Or.inr
      · rintro (hq | hq)
        · exact absurd hq.symm hpk
        · exact hq

/-! ### Row types of the four GTFS tables

A field absent from a row (ragged CSV) is the empty string; the script only
ever tests fields for JavaScript truthiness, on which `undefined` and `""`
agree. -/

structure StopRow where
  stop_id : String
  stop_name : String
  parent_station : String
deriving Repr, DecidableEq

structure RouteRow where
  route_id : String
  route_short_name : String
  route_long_name : String
  route_type : String
deriving Repr, DecidableEq

structure TripRow where
  trip_id : String
  route_id : String
deriving Repr, DecidableEq

structure StopTimeRow where
  trip_id : String
  stop_id : String
deriving Repr, DecidableEq

/-! ### `loadStops` -/

structure StopsState where
  stopToStation : List (String × String)
  stationName : List (String × String)
deriving Repr, DecidableEq

/-- The body of the `for await` loop of `loadStops`. -/
def loadStopsStep (st : StopsState) (row : StopRow) : StopsState :=
  if row.stop_id = "" then st
  else
    let name := row.stop_name
    let parent := row.parent_station
    let station_id := if parent = "" then row.stop_id else parent
    let stopToStation := mset st.stopToStation row.stop_id station_id
    let stationName :=
      if ¬ (mget? st.stationName station_id).isSome ∨ (parent = "" ∧ name ≠ "") then
        mset st.stationName station_id name
      else st.stationName
    ⟨stopToStation, stationName⟩

/-- `loadStops`: builds `stop_id → station_id` and `station_id → name`. -/
def loadStops (rows : List StopRow) : StopsState :=
  rows.foldl loadStopsStep ⟨[], []⟩

/-! ### `loadRoutes` -/

structure RouteInfo where
  shortName : String
  longName : String
  routeType : String
deriving Repr, DecidableEq

/-- The body of the `for await` loop of `loadRoutes`. -/
def loadRoutesStep (m : List (String × RouteInfo)) (row : RouteRow) :
    List (String × RouteInfo) :=
  if row.route_id = "" then m
  else
    let shortName :=
      if row.route_short_name = "" then row.route_id else row.route_short_name
    mset m row.route_id ⟨shortName, row.route_long_name, row.route_type⟩

/-- `loadRoutes`: builds `route_id → {shortName, longName, routeType}`. -/
def loadRoutes (rows : List RouteRow) : List (String × RouteInfo) :=
  rows.foldl loadRoutesStep []

/-! ### `loadTripsToRoute` -/

structure TripsResult where
  tripToRoute : List (String × String)
  count : Nat
deriving Repr, DecidableEq

/-- The body of the `for await` loop of `loadTripsToRoute`; `count` is the
number of loaded (not skipped) rows, which is what the script logs. -/
def loadTripsStep (st : TripsResult) (row : TripRow) : TripsResult :=
  if row.trip_id = "" ∨ row.route_id = "" then st
  else ⟨mset st.tripToRoute row.trip_id row.route_id, st.count + 1⟩

/-- `loadTripsToRoute`: builds `trip_id → route_id` with its loaded count. -/
def loadTripsToRoute (rows : List TripRow) : TripsResult :=
  rows.foldl loadTripsStep ⟨[], 0⟩

/-! ### `buildStationLines`: aggregation pass -/

/-- The three indices the aggregator reads. -/
structure Indices where
  stopToStation : List (String × String)
  stationName : List (String × String)
  routeMap : List (String × RouteInfo)
  tripToRoute : List (String × String)
deriving Repr, DecidableEq

structure AggState where
  stationRoutes : List (String × List String)
  rows : Nat
  missedTrips : Nat
  missedStops : Nat
deriving Repr, DecidableEq

/-- `stationRoutes.get(sid)` (creating) followed by `set.add(rid)`. -/
def addRoute (m : List (String × List String)) (sid rid : String) :
    List (String × List String) :=
  if m.any (fun p => p.1 == sid) then
    m.map (fun p =>
      if p.1 == sid then (p.1, if rid ∈ p.2 then p.2 else p.2 ++ [rid]) else p)
  else m ++ [(sid, [rid])]

/-- `r && r.routeType && r.routeType !== "1"`: the subway-filter test. -/
def subwaySkipB (routeMap : List (String × RouteInfo)) (rid : String) : Bool :=
  match mget? routeMap rid with
  | some r => decide (r.routeType ≠ "" ∧ r.routeType ≠ "1")
  | none => false

/-- The body of the `for await` loop over `stop_times.txt`. -/
def aggStep (onlySubway : Bool) (ix : Indices) (st : AggState) (row : StopTimeRow) :
    AggState :=
  let st := { st with rows := st.rows + 1 }
  if row.trip_id = "" ∨ row.stop_id = "" then st
  else
    let route_id := (mget? ix.tripToRoute row.trip_id).getD ""
    if route_id = "" then { st with missedTrips := st.missedTrips + 1 }
    else
      let station_id := (mget? ix.stopToStation row.stop_id).getD ""
      if station_id = "" then { st with missedStops := st.missedStops + 1 }
      else if onlySubway && subwaySkipB ix.routeMap route_id then st
      else { st with stationRoutes := addRoute st.stationRoutes station_id route_id }

/-- The full aggregation pass over the stop-time table. -/
def buildAgg (onlySubway : Bool) (ix : Indices) (stopTimes : List StopTimeRow) :
    AggState :=
  stopTimes.foldl (aggStep onlySubway ix) ⟨[], 0, 0, 0⟩

/-! ### Output assembly -/

/-- Worker of `dedupFirst`; `seen` holds the values already emitted. -/
def dedupAux (seen : List String) : List String → List String
  | [] => []
  | x :: xs => if x ∈ seen then dedupAux seen xs else x :: dedupAux (x :: seen) xs

/-- `Array.from(new Set(l))`: keep the first occurrence of each value. -/
def dedupFirst (l : List String) : List String := dedupAux [] l

/-- `routeMap.get(rid)?.shortName || rid`. -/
def resolveCode (routeMap : List (String × RouteInfo)) (rid : String) : String :=
  match mget? routeMap rid with
  | some r => if r.shortName = "" then rid else r.shortName
  | none => rid

/-- One output record. -/
structure Station where
  id : String
  name : String
  lines : List String
deriving Repr, DecidableEq

/-- The body of the output loop: name fallback, resolve, filter, dedup, sort. -/
def assembleStation (routeMap : List (String × RouteInfo))
    (stationName : List (String × String)) (p : String × List String) : Station :=
  let name :=
    match mget? stationName p.1 with
    | some n => if n = "" then p.1 else n
    | none => p.1
  let lines := (p.2.map (resolveCode routeMap)).filter (fun c => c != "")
  let unique := List.insertionSort natLe (dedupFirst lines)
  ⟨p.1, name, unique⟩

/-- The relation of the final `stations.sort`. -/
def stationLe (a b : Station) : Prop := ciLe a.name b.name

instance : DecidableRel stationLe := fun a b =>
  inferInstanceAs (Decidable (ciCompare a.name b.name ≠ .gt))

instance : IsTotal Station stationLe :=
  ⟨fun a b => cmpLe_total ciCompare_lawful a.name b.name⟩

instance : IsTrans Station stationLe :=
  ⟨fun a b c => cmpLe_trans ciCompare_lawful a.name b.name c.name⟩

/-- Conversion of the accumulator into the sorted output array. -/
def assemble (routeMap : List (String × RouteInfo))
    (stationName : List (String × String))
    (stationRoutes : List (String × List String)) : List Station :=
  List.insertionSort stationLe
    (stationRoutes.map (assembleStation routeMap stationName))

/-! ### Whole pipeline and invocation surface -/

structure GtfsInput where
  stops : List StopRow
  routes : List RouteRow
  trips : List TripRow
  stopTimes : List StopTimeRow
deriving Repr, DecidableEq

def mkIndices (g : GtfsInput) : Indices :=
  let s := loadStops g.stops
  ⟨s.stopToStation, s.stationName, loadRoutes g.routes,
    (loadTripsToRoute g.trips).tripToRoute⟩

/-- The output of `main` when all source files are present. -/
def pipeline (onlySubway : Bool) (g : GtfsInput) : List Station :=
  let ix := mkIndices g
  assemble ix.routeMap ix.stationName
    (buildAgg onlySubway ix g.stopTimes).stationRoutes

def requiredFiles : List String :=
  ["stops.txt", "routes.txt", "trips.txt", "stop_times.txt"]

structure RunResult where
  exitCode : Nat
  errMsg : Option String
  output : Option (List Station)
deriving Repr, DecidableEq

/-- The whole invocation: the pre-flight loop over `required` exits with code
1 and a message on the first missing file, before any table is read;
otherwise `main` runs and the process exits 0. `present` is the list of
files in the `--gtfs` directory. -/
def run (present : List String) (gtfsDir : String) (onlySubway : Bool)
    (g : GtfsInput) : RunResult :=
  match requiredFiles.find? (fun f => !(present.contains f)) with
  | some f => ⟨1, some ("Missing " ++ f ++ " at: " ++ gtfsDir ++ "/" ++ f), none⟩
  | none => ⟨0, none, some (pipeline onlySubway g)⟩

/-! ### Generic fold-invariant lemmas -/

theorem foldl_inv_mem {σ α : Type _} (step : σ → α → σ) (P : σ → Prop)
    (l : List α) (hstep : ∀ s a, a ∈ l → P s → P (step s a)) :
    ∀ s, P s → P (l.foldl step s) := by
  induction l with
  | nil => intro s hs; exact hs
  | cons a l ih =>
    intro s hs
    exact ih (fun s' a' ha' hs' => hstep s' a' (List.mem_cons_of_mem _ ha') hs') _
      (hstep s a (List.mem_cons_self _ _) hs)

theorem mget?_mem {m : List (String × β)} {k : String} {v : β}
    (h : mget? m k = some v) : ∃ k', (k', v) ∈ m := by
  unfold mget? at h
  cases hf : m.find? (fun p => p.1 == k) with
  | none => rw [hf] at h; cases h
  | some p =>
    rw [hf] at h
    have hp : p ∈ m := List.mem_of_find?_eq_some hf
    have hv : p.2 = v := by simpa using h
    exact ⟨p.1, by rw [← hv]; exact hp⟩

/-! ### `addRoute` lemmas -/

theorem addRoute_mem {m : List (String × List String)} {sid rid : String}
    {p : String × List String} (hp : p ∈ addRoute m sid rid) :
    (∃ q ∈ m, q.1 = p.1 ∧ ∀ x ∈ p.2, x ∈ q.2 ∨ x = rid) ∨ p = (sid, [rid]) := by
  unfold addRoute at hp
  by_cases hc : m.any (fun p => p.1 == sid)
  · rw [if_pos hc] at hp
    rcases List.mem_map.mp hp with ⟨q, hq, hqe⟩
    by_cases hqs : (q.1 == sid : Bool)
    · rw [if_pos hqs] at hqe
      left
      refine ⟨q, hq, by rw [← hqe], ?_⟩
      intro x hx
      rw [← hqe] at hx
      simp only at hx
      by_cases hrid : rid ∈ q.2
      · rw [if_pos hrid] at hx; exact Or.inl hx
      · rw [if_neg hrid] at hx
        rcases List.mem_append.mp hx with h | h
        · exact Or.inl h
        · exact Or.inr (by simpa using h)
    · rw [if_neg hqs] at hqe
      left
      exact ⟨q, hq, by rw [hqe], fun x hx => Or.inl (hqe ▸ hx)⟩
  · rw [if_neg hc] at hp
    rcases List.mem_append.mp hp with h | h
    · left; exact ⟨p, h, rfl, fun x hx => Or.inl hx⟩
    · right; simpa using h

theorem addRoute_fst (m : List (String × List String)) (sid rid : String) :
    mkeys (addRoute m sid rid) = mkeys m ∨
      mkeys (addRoute m sid rid) = mkeys m ++ [sid] := by
  unfold addRoute mkeys
  by_cases hc : m.any (fun p => p.1 == sid)
  · left
    rw [if_pos hc, List.map_map]
    apply List.map_congr_left
    intro p _
    simp only [Function.comp_apply]
    by_cases hps : (p.1 == sid : Bool)
    · rw [if_pos hps]
    · rw [if_neg hps]
  · right
    rw [if_neg hc, List.map_append]
    rfl

theorem addRoute_keys_nodup (m : List (String × List String)) (sid rid : String)
    (h : (mkeys m).Nodup) : (mkeys (addRoute m sid rid)).Nodup := by
  rcases addRoute_fst m sid rid with he | he
  · rw [he]; exact h
  · rw [he, List.nodup_append]
    refine ⟨h, by simp, ?_⟩
    intro a ha
    simp only [List.mem_singleton]
    intro hak
    unfold mkeys at ha
    rcases List.mem_map.mp ha with ⟨p, hp, hpk⟩
    have hc : m.any (fun q => q.1 == sid) = true :=
      List.any_eq_true.mpr ⟨p, hp, by simp [hpk, hak]⟩
    unfold addRoute at he
    rw [if_pos hc] at he
    unfold mkeys at he
    have hlen := congrArg List.length he
    simp at hlen

theorem addRoute_mem_key (m : List (String × List String)) (sid rid : String) :
    sid ∈ mkeys (addRoute m sid rid) := by
  by_cases hc : m.any (fun p => p.1 == sid)
  · rcases List.any_eq_true.mp hc with ⟨p, hp, hps⟩
    have hsid : sid ∈ mkeys m := by
      unfold mkeys
      exact List.mem_map.mpr ⟨p, hp, by simpa using hps⟩
    rcases addRoute_fst m sid rid with he | he
    · rw [he]; exact hsid
    · rw [he]; exact List.mem_append_left _ hsid
  · unfold addRoute
    rw [if_neg hc]
    unfold mkeys
    rw [List.map_append]
    simp

theorem addRoute_preserves_key (m : List (String × List String)) (sid rid k : String)
    (h : k ∈ mkeys m) : k ∈ mkeys (addRoute m sid rid) := by
  rcases addRoute_fst m sid rid with he | he
  · rw [he]; exact h
  · rw [he]; exact List.mem_append_left _ h

theorem addRoute_sets_nonempty {m : List (String × List String)} {sid rid : String}
    (h : ∀ p ∈ m, p.2 ≠ []) : ∀ p ∈ addRoute m sid rid, p.2 ≠ [] := by
  intro p hp
  unfold addRoute at hp
  by_cases hc : m.any (fun p => p.1 == sid)
  · rw [if_pos hc] at hp
    rcases List.mem_map.mp hp with ⟨q, hq, hqe⟩
    by_cases hqs : (q.1 == sid : Bool)
    · rw [if_pos hqs] at hqe
      rw [← hqe]
      by_cases hrid : rid ∈ q.2
      · simpa [hrid] using h q hq
      · simp [hrid]
    · rw [if_neg hqs] at hqe
      exact hqe ▸ h q hq
  · rw [if_neg hc] at hp
    rcases List.mem_append.mp hp with h2 | h2
    · exact h p h2
    · have : p = (sid, [rid]) := by simpa using h2
      simp [this]

theorem addRoute_sets_nodup {m : List (String × List String)} {sid rid : String}
    (h : ∀ p ∈ m, p.2.Nodup) : ∀ p ∈ addRoute m sid rid, p.2.Nodup := by
  intro p hp
  unfold addRoute at hp
  by_cases hc : m.any (fun p => p.1 == sid)
  · rw [if_pos hc] at hp
    rcases List.mem_map.mp hp with ⟨q, hq, hqe⟩
    by_cases hqs : (q.1 == sid : Bool)
    · rw [if_pos hqs] at hqe
      rw [← hqe]
      by_cases hrid : rid ∈ q.2
      · simpa [hrid] using h q hq
      · simp only [if_neg hrid]
        rw [List.nodup_append]
        refine ⟨h q hq, by simp, ?_⟩
        intro x hx hxr
        have hxe : x = rid := by simpa using hxr
        exact hrid (hxe ▸ hx)
    · rw [if_neg hqs] at hqe
      exact hqe ▸ h q hq
  · rw [if_neg hc] at hp
    rcases List.mem_append.mp hp with h2 | h2
    · exact h p h2
    · have : p = (sid, [rid]) := by simpa using h2
      simp [this]

/-! ### Deduplication lemmas -/

theorem mem_dedupAux : ∀ (seen l : List String) (x : String),
    x ∈ dedupAux seen l ↔ x ∈ l ∧ x ∉ seen := by
  intro seen l
  induction l generalizing seen with
  | nil => intro x; simp [dedupAux]
  | cons y ys ih =>
    intro x
    unfold dedupAux
    by_cases hy : y ∈ seen
    · rw [if_pos hy, ih seen x]
      constructor
      · rintro ⟨h1, h2⟩; exact ⟨List.mem_cons_of_mem _ h1, h2⟩
      · rintro ⟨h1, h2⟩
        rcases List.mem_cons.mp h1 with he | he
        · subst he; exact absurd hy h2
        · exact ⟨he, h2⟩
    · rw [if_neg hy]
      simp only [List.mem_cons, ih (y :: seen) x]
      constructor
      · rintro (he | ⟨h1, h2⟩)
        · subst he; exact ⟨Or.inl rfl, hy⟩
        · exact ⟨Or.inr h1, fun hs => h2 (Or.inr hs)⟩
      · rintro ⟨he | h1, h2⟩
        · exact Or.inl he
        · by_cases hxy : x = y
          · exact Or.inl hxy
          · exact Or.inr ⟨h1, by simp [hxy, h2]⟩

theorem mem_dedupFirst (l : List String) (x : String) :
    x ∈ dedupFirst l ↔ x ∈ l := by
  unfold dedupFirst
  rw [mem_dedupAux]
  simp

theorem nodup_dedupAux : ∀ (seen l : List String), (dedupAux seen l).Nodup := by
  intro seen l
  induction l generalizing seen with
  | nil => exact List.nodup_nil
  | cons y ys ih =>
    unfold dedupAux
    by_cases hy : y ∈ seen
    · rw [if_pos hy]; exact ih seen
    · rw [if_neg hy]
      refine List.Nodup.cons ?_ (ih (y :: seen))
      intro hmem
      have := (mem_dedupAux (y :: seen) ys y).mp hmem
      exact this.2 (List.mem_cons_self _ _)

theorem nodup_dedupFirst (l : List String) : (dedupFirst l).Nodup :=
  nodup_dedupAux [] l

theorem dedupFirst_ne_nil {l : List String} (h : l ≠ []) : dedupFirst l ≠ [] := by
  cases l with
  | nil => exact absurd rfl h
  | cons x xs =>
    intro hd
    have : x ∈ dedupFirst (x :: xs) :=
      (mem_dedupFirst _ _).mpr (List.mem_cons_self _ _)
    rw [hd] at this
    cases this

/-! ### Case lemmas for one aggregation step -/

theorem getD_ne_empty {o : Option String} (h : o.getD "" ≠ "") :
    o = some (o.getD "") := by
  cases o with
  | none => simp at h
  | some v => rfl

theorem aggStep_malformed (os : Bool) (ix : Indices) (st : AggState)
    (row : StopTimeRow) (h : row.trip_id = "" ∨ row.stop_id = "") :
    aggStep os ix st row = { st with rows := st.rows + 1 } := by
  unfold aggStep
  rw [if_pos h]

theorem aggStep_orphanTrip (os : Bool) (ix : Indices) (st : AggState)
    (row : StopTimeRow) (h : ¬ (row.trip_id = "" ∨ row.stop_id = ""))
    (h3 : (mget? ix.tripToRoute row.trip_id).getD "" = "") :
    aggStep os ix st row =
      { st with rows := st.rows + 1, missedTrips := st.missedTrips + 1 } := by
  unfold aggStep
  rw [if_neg h]
  simp [h3]

theorem aggStep_orphanStop (os : Bool) (ix : Indices) (st : AggState)
    (row : StopTimeRow) (h : ¬ (row.trip_id = "" ∨ row.stop_id = ""))
    (h3 : (mget? ix.tripToRoute row.trip_id).getD "" ≠ "")
    (h4 : (mget? ix.stopToStation row.stop_id).getD "" = "") :
    aggStep os ix st row =
      { st with rows := st.rows + 1, missedStops := st.missedStops + 1 } := by
  unfold aggStep
  rw [if_neg h, if_neg h3]
  simp [h4]

theorem aggStep_filtered (os : Bool) (ix : Indices) (st : AggState)
    (row : StopTimeRow) (h : ¬ (row.trip_id = "" ∨ row.stop_id = ""))
    (h3 : (mget? ix.tripToRoute row.trip_id).getD "" ≠ "")
    (h4 : (mget? ix.stopToStation row.stop_id).getD "" ≠ "")
    (h5 : (os && subwaySkipB ix.routeMap
      ((mget? ix.tripToRoute row.trip_id).getD "")) = true) :
    aggStep os ix st row = { st with rows := st.rows + 1 } := by
  unfold aggStep
  rw [if_neg h, if_neg h3, if_neg h4, if_pos h5]

theorem aggStep_insert (os : Bool) (ix : Indices) (st : AggState)
    (row : StopTimeRow) (h : ¬ (row.trip_id = "" ∨ row.stop_id = ""))
    (h3 : (mget? ix.tripToRoute row.trip_id).getD "" ≠ "")
    (h4 : (mget? ix.stopToStation row.stop_id).getD "" ≠ "")
    (h5 : (os && subwaySkipB ix.routeMap
      ((mget? ix.tripToRoute row.trip_id).getD "")) = false) :
    aggStep os ix st row =
      { st with
        rows := st.rows + 1
        stationRoutes := addRoute st.stationRoutes
          ((mget? ix.stopToStation row.stop_id).getD "")
          ((mget? ix.tripToRoute row.trip_id).getD "") } := by
  unfold aggStep
  rw [if_neg h, if_neg h3, if_neg h4, if_neg (by rw [h5]; exact Bool.false_ne_true)]

/-- Exhaustive case analysis on one aggregation step. -/
theorem aggStep_cases (os : Bool) (ix : Indices) (st : AggState)
    (row : StopTimeRow) :
    aggStep os ix st row = { st with rows := st.rows + 1 } ∨
    aggStep os ix st row =
      { st with rows := st.rows + 1, missedTrips := st.missedTrips + 1 } ∨
    aggStep os ix st row =
      { st with rows := st.rows + 1, missedStops := st.missedStops + 1 } ∨
    aggStep os ix st row =
      { st with
        rows := st.rows + 1
        stationRoutes := addRoute st.stationRoutes
          ((mget? ix.stopToStation row.stop_id).getD "")
          ((mget? ix.tripToRoute row.trip_id).getD "") } := by
  by_cases h : row.trip_id = "" ∨ row.stop_id = ""
  · exact Or.inl (aggStep_malformed os ix st row h)
  · by_cases h3 : (mget? ix.tripToRoute row.trip_id).getD "" = ""
    · exact Or.inr (Or.inl (aggStep_orphanTrip os ix st row h h3))
    · by_cases h4 : (mget? ix.stopToStation row.stop_id).getD "" = ""
      · exact Or.inr (Or.inr (Or.inl (aggStep_orphanStop os ix st row h h3 h4)))
      · cases h5 : (os && subwaySkipB ix.routeMap
          ((mget? ix.tripToRoute row.trip_id).getD "")) with
        | true => exact Or.inl (aggStep_filtered os ix st row h h3 h4 h5)
        | false =>
          exact Or.inr (Or.inr (Or.inr (aggStep_insert os ix st row h h3 h4 h5)))

theorem aggStep_rows (os : Bool) (ix : Indices) (st : AggState)
    (row : StopTimeRow) : (aggStep os ix st row).rows = st.rows + 1 := by
  rcases aggStep_cases os ix st row with h | h | h | h <;> rw [h]

/-- A stop-time row that is an orphan-trip reference. -/
def isOrphanTripB (ix : Indices) (row : StopTimeRow) : Bool :=
  !(row.trip_id == "") && !(row.stop_id == "") &&
    ((mget? ix.tripToRoute row.trip_id).getD "" == "")

/-- A stop-time row that is an orphan-stop reference. -/
def isOrphanStopB (ix : Indices) (row : StopTimeRow) : Bool :=
  !(row.trip_id == "") && !(row.stop_id == "") &&
    !((mget? ix.tripToRoute row.trip_id).getD "" == "") &&
    ((mget? ix.stopToStation row.stop_id).getD "" == "")

theorem aggStep_missedTrips (os : Bool) (ix : Indices) (st : AggState)
    (row : StopTimeRow) :
    (aggStep os ix st row).missedTrips =
      st.missedTrips + (if isOrphanTripB ix row then 1 else 0) := by
  by_cases h : row.trip_id = "" ∨ row.stop_id = ""
  · rw [aggStep_malformed os ix st row h]
    have hb : isOrphanTripB ix row = false := by
      unfold isOrphanTripB
      rcases h with h | h <;> simp [h]
    simp [hb]
  · by_cases h3 : (mget? ix.tripToRoute row.trip_id).getD "" = ""
    · rw [aggStep_orphanTrip os ix st row h h3]
      have hb : isOrphanTripB ix row = true := by
        unfold isOrphanTripB
        push_neg at h
        simp [h.1, h.2, h3]
      simp [hb]
    · have hb : isOrphanTripB ix row = false := by
        unfold isOrphanTripB
        simp [h3]
      rw [hb]
      simp only [if_neg Bool.false_ne_true, Nat.add_zero]
      by_cases h4 : (mget? ix.stopToStation row.stop_id).getD "" = ""
      · rw [aggStep_orphanStop os ix st row h h3 h4]
      · cases h5 : (os && subwaySkipB ix.routeMap
          ((mget? ix.tripToRoute row.trip_id).getD "")) with
        | true => rw [aggStep_filtered os ix st row h h3 h4 h5]
        | false => rw [aggStep_insert os ix st row h h3 h4 h5]

theorem aggStep_missedStops (os : Bool) (ix : Indices) (st : AggState)
    (row : StopTimeRow) :
    (aggStep os ix st row).missedStops =
      st.missedStops + (if isOrphanStopB ix row then 1 else 0) := by
  by_cases h : row.trip_id = "" ∨ row.stop_id = ""
  · rw [aggStep_malformed os ix st row h]
    have hb : isOrphanStopB ix row = false := by
      unfold isOrphanStopB
      rcases h with h | h <;> simp [h]
    simp [hb]
  · by_cases h3 : (mget? ix.tripToRoute row.trip_id).getD "" = ""
    · rw [aggStep_orphanTrip os ix st row h h3]
      have hb : isOrphanStopB ix row = false := by
        unfold isOrphanStopB
        simp [h3]
      simp [hb]
    · by_cases h4 : (mget? ix.stopToStation row.stop_id).getD "" = ""
      · rw [aggStep_orphanStop os ix st row h h3 h4]
        have hb : isOrphanStopB ix row = true := by
          unfold isOrphanStopB
          push_neg at h
          simp [h.1, h.2, h3, h4]
        simp [hb]
      · have hb : isOrphanStopB ix row = false := by
          unfold isOrphanStopB
          simp [h3, h4]
        rw [hb]
        simp only [if_neg Bool.false_ne_true, Nat.add_zero]
        cases h5 : (os && subwaySkipB ix.routeMap
          ((mget? ix.tripToRoute row.trip_id).getD "")) with
        | true => rw [aggStep_filtered os ix st row h h3 h4 h5]
        | false => rw [aggStep_insert os ix st row h h3 h4 h5]

theorem aggStep_routes_congr (os : Bool) (ix : Indices) (row : StopTimeRow)
    (st st' : AggState) (h : st.stationRoutes = st'.stationRoutes) :
    (aggStep os ix st row).stationRoutes = (aggStep os ix st' row).stationRoutes := by
  by_cases hm : row.trip_id = "" ∨ row.stop_id = ""
  · rw [aggStep_malformed os ix st row hm, aggStep_malformed os ix st' row hm]
    exact h
  · by_cases h3 : (mget? ix.tripToRoute row.trip_id).getD "" = ""
    · rw [aggStep_orphanTrip os ix st row hm h3, aggStep_orphanTrip os ix st' row hm h3]
      exact h
    · by_cases h4 : (mget? ix.stopToStation row.stop_id).getD "" = ""
      · rw [aggStep_orphanStop os ix st row hm h3 h4,
          aggStep_orphanStop os ix st' row hm h3 h4]
        exact h
      · cases h5 : (os && subwaySkipB ix.routeMap
          ((mget? ix.tripToRoute row.trip_id).getD "")) with
        | true =>
          rw [aggStep_filtered os ix st row hm h3 h4 h5,
            aggStep_filtered os ix st' row hm h3 h4 h5]
          exact h
        | false =>
          rw [aggStep_insert os ix st row hm h3 h4 h5,
            aggStep_insert os ix st' row hm h3 h4 h5]
          simp only [h]

/-! ### Fold-level lemmas over the stop-time pass -/

theorem foldAgg_rows (os : Bool) (ix : Indices) :
    ∀ (rows : List StopTimeRow) (st : AggState),
      (rows.foldl (aggStep os ix) st).rows = st.rows + rows.length := by
  intro rows
  induction rows with
  | nil => intro st; rfl
  | cons row rows ih =>
    intro st
    rw [List.foldl_cons, ih, aggStep_rows]
    simp [Nat.add_assoc, Nat.add_comm 1 rows.length]

theorem foldAgg_missedTrips (os : Bool) (ix : Indices) :
    ∀ (rows : List StopTimeRow) (st : AggState),
      (rows.foldl (aggStep os ix) st).missedTrips =
        st.missedTrips + rows.countP (isOrphanTripB ix) := by
  intro rows
  induction rows with
  | nil => intro st; rfl
  | cons row rows ih =>
    intro st
    rw [List.foldl_cons, ih, aggStep_missedTrips, List.countP_cons]
    by_cases hb : isOrphanTripB ix row <;> simp [hb] <;> omega

theorem foldAgg_missedStops (os : Bool) (ix : Indices) :
    ∀ (rows : List StopTimeRow) (st : AggState),
      (rows.foldl (aggStep os ix) st).missedStops =
        st.missedStops + rows.countP (isOrphanStopB ix) := by
  intro rows
  induction rows with
  | nil => intro st; rfl
  | cons row rows ih =>
    intro st
    rw [List.foldl_cons, ih, aggStep_missedStops, List.countP_cons]
    by_cases hb : isOrphanStopB ix row <;> simp [hb] <;> omega

theorem foldAgg_routes_congr (os : Bool) (ix : Indices) :
    ∀ (rows : List StopTimeRow) (st st' : AggState),
      st.stationRoutes = st'.stationRoutes →
      (rows.foldl (aggStep os ix) st).stationRoutes =
        (rows.foldl (aggStep os ix) st').stationRoutes := by
  intro rows
  induction rows with
  | nil => intro st st' h; exact h
  | cons row rows ih =>
    intro st st' h
    rw [List.foldl_cons, List.foldl_cons]
    exact ih _ _ (aggStep_routes_congr os ix row st st' h)

theorem foldAgg_key_mono (os : Bool) (ix : Indices) :
    ∀ (rows : List StopTimeRow) (st : AggState) (k : String),
      k ∈ mkeys st.stationRoutes →
      k ∈ mkeys (rows.foldl (aggStep os ix) st).stationRoutes := by
  intro rows
  induction rows with
  | nil => intro st k h; exact h
  | cons row rows ih =>
    intro st k h
    rw [List.foldl_cons]
    apply ih
    rcases aggStep_cases os ix st row with he | he | he | he <;> rw [he]
    · exact h
    · exact h
    · exact h
    · exact addRoute_preserves_key _ _ _ _ h

/-! ### Loader invariants -/

/-- The station id a stop row resolves to: parent if non-empty, else own id. -/
def stationIdOf (row : StopRow) : String :=
  if row.parent_station = "" then row.stop_id else row.parent_station

theorem stationIdOf_ne_empty {row : StopRow} (h : row.stop_id ≠ "") :
    stationIdOf row ≠ "" := by
  unfold stationIdOf
  by_cases hp : row.parent_station = ""
  · rw [if_pos hp]; exact h
  · rw [if_neg hp]; exact hp

theorem loadStops_stopToStation_spec (rows : List StopRow) :
    ∀ p ∈ (loadStops rows).stopToStation,
      ∃ row ∈ rows, row.stop_id ≠ "" ∧ p.1 = row.stop_id ∧ p.2 = stationIdOf row := by
  unfold loadStops
  apply foldl_inv_mem loadStopsStep
    (fun st => ∀ p ∈ st.stopToStation,
      ∃ row ∈ rows, row.stop_id ≠ "" ∧ p.1 = row.stop_id ∧ p.2 = stationIdOf row)
    rows
  · intro st row hrow hst p hp
    unfold loadStopsStep at hp
    by_cases hid : row.stop_id = ""
    · rw [if_pos hid] at hp
      exact hst p hp
    · rw [if_neg hid] at hp
      simp only at hp
      rcases mem_mset hp with h | h
      · exact hst p h
      · refine ⟨row, hrow, hid, ?_, ?_⟩
        · rw [h]
        · rw [h]
          unfold stationIdOf
          by_cases hpar : row.parent_station = "" <;> simp [hpar]
  · intro p hp
    cases hp

theorem loadRoutes_spec (rows : List RouteRow) :
    ∀ p ∈ loadRoutes rows, p.1 ≠ "" ∧ p.2.shortName ≠ "" := by
  unfold loadRoutes
  apply foldl_inv_mem loadRoutesStep
    (fun m => ∀ p ∈ m, p.1 ≠ "" ∧ p.2.shortName ≠ "") rows
  · intro m row hrow hm p hp
    unfold loadRoutesStep at hp
    by_cases hid : row.route_id = ""
    · rw [if_pos hid] at hp
      exact hm p hp
    · rw [if_neg hid] at hp
      simp only at hp
      rcases mem_mset hp with h | h
      · exact hm p h
      · rw [h]
        refine ⟨hid, ?_⟩
        by_cases hsn : row.route_short_name = "" <;> simp [hsn, hid]
  · intro p hp
    cases hp

/-! ### Aggregator invariants -/

/-- Facts true of every key inserted into the accumulator. -/
def KeyOk (ix : Indices) (sid : String) : Prop :=
  sid ≠ "" ∧ ∃ s, mget? ix.stopToStation s = some sid

/-- Facts true of every route id inserted into the accumulator. -/
def RidOk (os : Bool) (ix : Indices) (rid : String) : Prop :=
  rid ≠ "" ∧ (∃ t, mget? ix.tripToRoute t = some rid) ∧
    (os = true → subwaySkipB ix.routeMap rid = false)

theorem buildAgg_inv (os : Bool) (ix : Indices) (rows : List StopTimeRow) :
    ∀ p ∈ (buildAgg os ix rows).stationRoutes,
      KeyOk ix p.1 ∧ p.2 ≠ [] ∧ p.2.Nodup ∧ ∀ rid ∈ p.2, RidOk os ix rid := by
  unfold buildAgg
  apply foldl_inv_mem (aggStep os ix)
    (fun st => ∀ p ∈ st.stationRoutes,
      KeyOk ix p.1 ∧ p.2 ≠ [] ∧ p.2.Nodup ∧ ∀ rid ∈ p.2, RidOk os ix rid)
    rows
  · intro st row _ hst p hp
    by_cases hm : row.trip_id = "" ∨ row.stop_id = ""
    · rw [aggStep_malformed os ix st row hm] at hp
      exact hst p hp
    · by_cases h3 : (mget? ix.tripToRoute row.trip_id).getD "" = ""
      · rw [aggStep_orphanTrip os ix st row hm h3] at hp
        exact hst p hp
      · by_cases h4 : (mget? ix.stopToStation row.stop_id).getD "" = ""
        · rw [aggStep_orphanStop os ix st row hm h3 h4] at hp
          exact hst p hp
        · cases h5 : (os && subwaySkipB ix.routeMap
            ((mget? ix.tripToRoute row.trip_id).getD "")) with
          | true =>
            rw [aggStep_filtered os ix st row hm h3 h4 h5] at hp
            exact hst p hp
          | false =>
            rw [aggStep_insert os ix st row hm h3 h4 h5] at hp
            simp only at hp
            have hridOk : RidOk os ix ((mget? ix.tripToRoute row.trip_id).getD "") := by
              refine ⟨h3, ⟨row.trip_id, getD_ne_empty h3⟩, ?_⟩
              intro hos
              rw [hos] at h5
              simpa using h5
            have hkeyOk : KeyOk ix ((mget? ix.stopToStation row.stop_id).getD "") :=
              ⟨h4, ⟨row.stop_id, getD_ne_empty h4⟩⟩
            refine ⟨?_, ?_, ?_, ?_⟩
            · rcases addRoute_mem hp with ⟨q, hq, hkey, _⟩ | hpe
              · exact hkey ▸ (hst q hq).1
              · rw [hpe]; exact hkeyOk
            · exact addRoute_sets_nonempty (fun q hq => (hst q hq).2.1) p hp
            · exact addRoute_sets_nodup (fun q hq => (hst q hq).2.2.1) p hp
            · intro rid hrid
              rcases addRoute_mem hp with ⟨q, hq, _, hels⟩ | hpe
              · rcases hels rid hrid with hin | heq
                · exact (hst q hq).2.2.2 rid hin
                · exact heq ▸ hridOk
              · rw [hpe] at hrid
                have : rid = (mget? ix.tripToRoute row.trip_id).getD "" := by
                  simpa using hrid
                exact this ▸ hridOk
  · intro p hp
    cases hp

theorem buildAgg_keys_nodup (os : Bool) (ix : Indices) (rows : List StopTimeRow) :
    (mkeys (buildAgg os ix rows).stationRoutes).Nodup := by
  unfold buildAgg
  apply foldl_inv_mem (aggStep os ix)
    (fun st => (mkeys st.stationRoutes).Nodup) rows
  · intro st row _ hst
    rcases aggStep_cases os ix st row with he | he | he | he <;> rw [he]
    · exact hst
    · exact hst
    · exact hst
    · exact addRoute_keys_nodup _ _ _ hst
  · exact List.nodup_nil

theorem buildAgg_visited (os : Bool) (ix : Indices) (rows : List StopTimeRow)
    (row : StopTimeRow) (sid : String) (hmem : row ∈ rows)
    (h1 : row.trip_id ≠ "") (h2 : row.stop_id ≠ "")
    (h3 : (mget? ix.tripToRoute row.trip_id).getD "" ≠ "")
    (h4 : (mget? ix.stopToStation row.stop_id).getD "" = sid) (h5 : sid ≠ "")
    (h6 : (os && subwaySkipB ix.routeMap
      ((mget? ix.tripToRoute row.trip_id).getD "")) = false) :
    sid ∈ mkeys (buildAgg os ix rows).stationRoutes := by
  rcases List.append_of_mem hmem with ⟨pre, post, rfl⟩
  unfold buildAgg
  rw [List.foldl_append, List.foldl_cons]
  apply foldAgg_key_mono
  rw [aggStep_insert os ix _ row (by push_neg; exact ⟨h1, h2⟩) h3
    (by rw [h4]; exact h5) h6]
  simp only
  rw [h4]
  exact addRoute_mem_key _ _ _

/-! ### The name-recording rule, stated per station id (for the refinement
against the Stop Resolver) -/

/-- Modelled from the spec: one application of the Stop Resolver's
name-recording rule for a fixed station id — a row records/overwrites the
name for its stationId iff it is parent-less and carries a non-empty name,
or no name has yet been recorded for that stationId. -/
def recStep (sid : String) (acc : Option String) (row : StopRow) : Option String :=
  if row.stop_id = "" then acc
  else if stationIdOf row = sid ∧
      ((row.parent_station = "" ∧ row.stop_name ≠ "") ∨ acc = none) then
    some row.stop_name
  else acc

/-- Modelled from the spec: the canonical name the per-row rule determines
after the whole stop table is processed, for one station id. -/
def recordedName (rows : List StopRow) (sid : String) : Option String :=
  rows.foldl (recStep sid) none

theorem loadStopsStep_name (st : StopsState) (row : StopRow) (sid : String) :
    mget? (loadStopsStep st row).stationName sid =
      recStep sid (mget? st.stationName sid) row := by
  unfold loadStopsStep recStep
  by_cases hid : row.stop_id = ""
  · rw [if_pos hid, if_pos hid]
  · rw [if_neg hid, if_neg hid]
    simp only
    by_cases hsid : stationIdOf row = sid
    · have hsid' : (if row.parent_station = "" then row.stop_id
        else row.parent_station) = sid := hsid
      rw [hsid']
      by_cases hcond : ¬ (mget? st.stationName sid).isSome ∨
          (row.parent_station = "" ∧ row.stop_name ≠ "")
      · rw [if_pos hcond, mget?_mset_self]
        have hcond2 : stationIdOf row = sid ∧
            ((row.parent_station = "" ∧ row.stop_name ≠ "") ∨
              mget? st.stationName sid = none) := by
          refine ⟨hsid, ?_⟩
          rcases hcond with hc | hc
          · exact Or.inr (Option.not_isSome_iff_eq_none.mp hc)
          · exact Or.inl hc
        rw [if_pos hcond2]
      · rw [if_neg hcond]
        have hnand : ¬ (row.parent_station = "" ∧ row.stop_name ≠ "") :=
          fun hc => hcond (Or.inr hc)
        have hsome : (mget? st.stationName sid).isSome := by
          by_contra hq
          exact hcond (Or.inl hq)
        have hcond2 : ¬ (stationIdOf row = sid ∧
            ((row.parent_station = "" ∧ row.stop_name ≠ "") ∨
              mget? st.stationName sid = none)) := by
          rintro ⟨-, hor | hor⟩
          · exact hnand hor
          · rw [hor] at hsome
            simp at hsome
        rw [if_neg hcond2]
    · have hsid' : (if row.parent_station = "" then row.stop_id
        else row.parent_station) ≠ sid := hsid
      have hcond2 : ¬ (stationIdOf row = sid ∧
          ((row.parent_station = "" ∧ row.stop_name ≠ "") ∨
            mget? st.stationName sid = none)) := fun hc => hsid hc.1
      rw [if_neg hcond2]
      by_cases hcond : ¬ (mget? st.stationName
          (if row.parent_station = "" then row.stop_id
            else row.parent_station)).isSome ∨
          (row.parent_station = "" ∧ row.stop_name ≠ "")
      · rw [if_pos hcond, mget?_mset_ne _ _ _ _ (fun hq => hsid' hq.symm)]
      · rw [if_neg hcond]

theorem loadStops_name_aux (sid : String) :
    ∀ (rows : List StopRow) (st : StopsState),
      mget? (rows.foldl loadStopsStep st).stationName sid =
        rows.foldl (recStep sid) (mget? st.stationName sid) := by
  intro rows
  induction rows with
  | nil => intro st; rfl
  | cons row rows ih =>
    intro st
    rw [List.foldl_cons, List.foldl_cons, ih, loadStopsStep_name]

/-! ### Spec-side description of the output lines -/

/-- Modelled from the spec: resolve a route id to its short code, falling
back to the raw id when the route is unknown to the Route Catalog. -/
def specResolve (routeMap : List (String × RouteInfo)) (rid : String) : String :=
  match mget? routeMap rid with
  | some r => r.shortName
  | none => rid

/-- Modelled from the spec: resolve every accumulated route id, remove
duplicates, and sort with the natural case-insensitive comparator. -/
def specLines (routeMap : List (String × RouteInfo)) (rids : List String) :
    List String :=
  List.insertionSort natLe (dedupFirst (rids.map (specResolve routeMap)))

theorem resolveCode_eq_specResolve (routeMap : List (String × RouteInfo))
    (hrm : ∀ p ∈ routeMap, p.2.shortName ≠ "") (rid : String) :
    resolveCode routeMap rid = specResolve routeMap rid := by
  unfold resolveCode specResolve
  cases hf : mget? routeMap rid with
  | none => rfl
  | some r =>
    rcases mget?_mem hf with ⟨k, hk⟩
    have h1 : r.shortName ≠ "" := hrm (k, r) hk
    show (if r.shortName = "" then rid else r.shortName) = r.shortName
    rw [if_neg h1]

theorem resolveCode_ne_empty (routeMap : List (String × RouteInfo))
    (hrm : ∀ p ∈ routeMap, p.2.shortName ≠ "") (rid : String) (hrid : rid ≠ "") :
    resolveCode routeMap rid ≠ "" := by
  unfold resolveCode
  cases hf : mget? routeMap rid with
  | none => exact hrid
  | some r =>
    rcases mget?_mem hf with ⟨k, hk⟩
    have h1 : r.shortName ≠ "" := hrm (k, r) hk
    show (if r.shortName = "" then rid else r.shortName) ≠ ""
    rw [if_neg h1]
    exact h1

theorem lines_eq_specLines (routeMap : List (String × RouteInfo))
    (rids : List String) (hrm : ∀ p ∈ routeMap, p.2.shortName ≠ "")
    (hr : ∀ rid ∈ rids, rid ≠ "") :
    List.insertionSort natLe (dedupFirst
      ((rids.map (resolveCode routeMap)).filter (fun c => c != ""))) =
      specLines routeMap rids := by
  unfold specLines
  have hfilter : (rids.map (resolveCode routeMap)).filter (fun c => c != "") =
      rids.map (resolveCode routeMap) := by
    rw [List.filter_eq_self]
    intro c hc
    rcases List.mem_map.mp hc with ⟨rid, hrid, he⟩
    have : c ≠ "" := he ▸ resolveCode_ne_empty routeMap hrm rid (hr rid hrid)
    simpa using this
  have hmap : rids.map (resolveCode routeMap) = rids.map (specResolve routeMap) :=
    List.map_congr_left (fun rid _ => resolveCode_eq_specResolve routeMap hrm rid)
  rw [hfilter, hmap]

/-! ### Output-level helper lemmas -/

theorem mem_assemble {routeMap : List (String × RouteInfo)}
    {stationName : List (String × String)}
    {stationRoutes : List (String × List String)} {s : Station}
    (hs : s ∈ assemble routeMap stationName stationRoutes) :
    ∃ p ∈ stationRoutes, s = assembleStation routeMap stationName p := by
  unfold assemble at hs
  have hmem := (List.perm_insertionSort stationLe
    (stationRoutes.map (assembleStation routeMap stationName))).mem_iff.mp hs
  rcases List.mem_map.mp hmem with ⟨p, hp, he⟩
  exact ⟨p, hp, he.symm⟩

theorem assembleStation_id (routeMap : List (String × RouteInfo))
    (stationName : List (String × String)) (p : String × List String) :
    (assembleStation routeMap stationName p).id = p.1 := rfl

theorem assembleStation_lines (routeMap : List (String × RouteInfo))
    (stationName : List (String × String)) (p : String × List String) :
    (assembleStation routeMap stationName p).lines =
      List.insertionSort natLe (dedupFirst
        ((p.2.map (resolveCode routeMap)).filter (fun c => c != ""))) := rfl

theorem assembleStation_name (routeMap : List (String × RouteInfo))
    (stationName : List (String × String)) (p : String × List String) :
    (assembleStation routeMap stationName p).name =
      match mget? stationName p.1 with
      | some n => if n = "" then p.1 else n
      | none => p.1 := rfl

theorem assemble_ids_perm (routeMap : List (String × RouteInfo))
    (stationName : List (String × String))
    (stationRoutes : List (String × List String)) :
    ((assemble routeMap stationName stationRoutes).map Station.id).Perm
      (mkeys stationRoutes) := by
  unfold assemble
  have h1 := (List.perm_insertionSort stationLe
    (stationRoutes.map (assembleStation routeMap stationName))).map Station.id
  have h2 : (stationRoutes.map (assembleStation routeMap stationName)).map
      Station.id = mkeys stationRoutes := by
    rw [List.map_map]
    exact List.map_congr_left (fun p _ => rfl)
  rw [h2] at h1
  exact h1

/-! ### Auxiliary count lemma for the trips loader -/

theorem loadTrips_count_aux :
    ∀ (rows : List TripRow) (st : TripsResult),
      (rows.foldl loadTripsStep st).count =
        st.count + rows.countP (fun row => !(row.trip_id == "") && !(row.route_id == "")) := by
  intro rows
  induction rows with
  | nil => intro st; rfl
  | cons row rows ih =>
    intro st
    rw [List.foldl_cons, ih, List.countP_cons]
    by_cases hm : row.trip_id = "" ∨ row.route_id = ""
    · have hstep : loadTripsStep st row = st := by
        unfold loadTripsStep
        rw [if_pos hm]
      have hb : (!(row.trip_id == "") && !(row.route_id == "")) = false := by
        rcases hm with hm | hm <;> simp [hm]
      rw [hstep, hb]
      simp
    · have hstep : loadTripsStep st row =
          ⟨mset st.tripToRoute row.trip_id row.route_id, st.count + 1⟩ := by
        unfold loadTripsStep
        rw [if_neg hm]
      push_neg at hm
      have hb : (!(row.trip_id == "") && !(row.route_id == "")) = true := by
        simp [hm.1, hm.2]
      rw [hstep, hb, if_pos rfl]
      show st.count + 1 + _ = st.count + (_ + 1)
      omega

/-! ### Concrete inputs used by witnesses -/

/-- The spec's end-to-end example feed. -/
def wInput : GtfsInput :=
  ⟨[⟨"101", "Grand Ave", ""⟩, ⟨"101N", "", "101"⟩],
   [⟨"Q", "Q", "", "1"⟩],
   [⟨"t1", "Q"⟩],
   [⟨"t1", "101N"⟩]⟩

/-- A feed whose single station accumulates codes 10, 2, 1, A in that order. -/
def natInput : GtfsInput :=
  ⟨[⟨"s1", "X", ""⟩],
   [⟨"10", "", "", ""⟩, ⟨"2", "", "", ""⟩, ⟨"1", "", "", ""⟩, ⟨"A", "", "", ""⟩],
   [⟨"t10", "10"⟩, ⟨"t2", "2"⟩, ⟨"t1", "1"⟩, ⟨"tA", "A"⟩],
   [⟨"t10", "s1"⟩, ⟨"t2", "s1"⟩, ⟨"t1", "s1"⟩, ⟨"tA", "s1"⟩]⟩

/-- A tiny index set (one stop, one trip, one non-subway route). -/
def ixNonSubway : Indices :=
  ⟨[("s", "S")], [("S", "Stn")], [("R", ⟨"R", "", "2"⟩)], [("t", "R")]⟩

/-- Same as `ixNonSubway` but the route's classification is blank. -/
def ixBlankType : Indices :=
  ⟨[("s", "S")], [("S", "Stn")], [("R", ⟨"R", "", ""⟩)], [("t", "R")]⟩

/-- A feed with one non-subway route serving its single stop. -/
def busInput : GtfsInput :=
  ⟨[⟨"s", "Stn", ""⟩], [⟨"R", "R", "", "2"⟩], [⟨"t", "R"⟩], [⟨"t", "s"⟩]⟩

/-! ### The claims -/

/-- C1: on the spec's end-to-end feed — one parent station "101" ("Grand
Ave"), one child stop "101N", route "Q", trip "t1" on "Q" and the single
stop-time (t1, 101N) — the pipeline outputs exactly
[{id "101", name "Grand Ave", lines ["Q"]}]. -/
theorem claim1_end_to_end :
    pipeline false
      ⟨[⟨"101", "Grand Ave", ""⟩, ⟨"101N", "Grand Ave N", "101"⟩],
       [⟨"Q", "Q", "", "1"⟩],
       [⟨"t1", "Q"⟩],
       [⟨"t1", "101N"⟩]⟩ =
      [⟨"101", "Grand Ave", ["Q"]⟩] := by decide

/-- C2: every output station's `lines` is the spec-side resolution of its
accumulated route ids (short code with raw-id fallback), deduplicated and
naturally sorted — in particular duplicate-free and `natLe`-sorted — and on a
station whose resolved codes are ["10","2","1","A"] the output is
["1","2","10","A"]. -/
theorem claim2_lines :
    (∀ (g : GtfsInput) (os : Bool) (s : Station), s ∈ pipeline os g →
      (∃ rids, (s.id, rids) ∈
          (buildAgg os (mkIndices g) g.stopTimes).stationRoutes ∧
        s.lines = specLines (mkIndices g).routeMap rids) ∧
      s.lines.Nodup ∧ s.lines.Pairwise natLe) ∧
    pipeline false natInput = [⟨"s1", "X", ["1", "2", "10", "A"]⟩] := by
  constructor
  · intro g os s hs
    simp only [pipeline] at hs
    rcases mem_assemble hs with ⟨p, hp, hse⟩
    have hinv := buildAgg_inv os (mkIndices g) g.stopTimes p hp
    have hrm : ∀ q ∈ (mkIndices g).routeMap, q.2.shortName ≠ "" :=
      fun q hq => (loadRoutes_spec g.routes q hq).2
    have hrids : ∀ rid ∈ p.2, rid ≠ "" :=
      fun rid hrid => (hinv.2.2.2 rid hrid).1
    have hlines : s.lines = specLines (mkIndices g).routeMap p.2 := by
      rw [hse, assembleStation_lines]
      exact lines_eq_specLines _ _ hrm hrids
    refine ⟨⟨p.2, ?_, hlines⟩, ?_, ?_⟩
    · rw [hse, assembleStation_id]
      exact hp
    · rw [hlines]
      unfold specLines
      exact (List.perm_insertionSort natLe _).nodup_iff.mpr (nodup_dedupFirst _)
    · rw [hlines]
      unfold specLines
      exact List.sorted_insertionSort natLe _
  · decide

/-- C2 witness: the general statement applied to the natural-ordering feed
and its single output station. -/
theorem claim2_lines_witness :
    (Station.mk "s1" "X" ["1", "2", "10", "A"]) ∈ pipeline false natInput ∧
    ((∃ rids,
        ((Station.mk "s1" "X" ["1", "2", "10", "A"]).id, rids) ∈
          (buildAgg false (mkIndices natInput) natInput.stopTimes).stationRoutes ∧
        (Station.mk "s1" "X" ["1", "2", "10", "A"]).lines =
          specLines (mkIndices natInput).routeMap rids) ∧
      (Station.mk "s1" "X" ["1", "2", "10", "A"]).lines.Nodup ∧
      (Station.mk "s1" "X" ["1", "2", "10", "A"]).lines.Pairwise natLe) :=
  ⟨by decide, claim2_lines.1 natInput false _ (by decide)⟩

/-- C3: the canonical name the Stop Resolver records for a station id is the
one determined by the spec's per-row rule — record/overwrite iff the row is
parent-less with a non-empty name, or nothing is recorded yet — and on the
parent/child example the station "S1" is named "Main St" even though a child
row came first. -/
theorem claim3_name_rule :
    (∀ (rows : List StopRow) (sid : String),
      mget? (loadStops rows).stationName sid = recordedName rows sid) ∧
    mget? (loadStops
        [⟨"S1N", "Side Name", "S1"⟩, ⟨"S1", "Main St", ""⟩]).stationName "S1" =
      some "Main St" := by
  constructor
  · intro rows sid
    unfold loadStops recordedName
    exact loadStops_name_aux sid rows ⟨[], []⟩
  · decide

/-- C4: with subway-only active an event whose route is known with a
non-empty classification other than "1" is skipped (accumulator unchanged);
an event whose route is unknown or blank-classified is inserted; and no
known non-subway route id ends up in any station's route set. -/
theorem claim4_subway_filter :
    (∀ (ix : Indices) (st : AggState) (row : StopTimeRow) (r : RouteInfo),
      ¬ (row.trip_id = "" ∨ row.stop_id = "") →
      (mget? ix.tripToRoute row.trip_id).getD "" ≠ "" →
      (mget? ix.stopToStation row.stop_id).getD "" ≠ "" →
      mget? ix.routeMap ((mget? ix.tripToRoute row.trip_id).getD "") = some r →
      r.routeType ≠ "" → r.routeType ≠ "1" →
      (aggStep true ix st row).stationRoutes = st.stationRoutes) ∧
    (∀ (ix : Indices) (st : AggState) (row : StopTimeRow),
      ¬ (row.trip_id = "" ∨ row.stop_id = "") →
      (mget? ix.tripToRoute row.trip_id).getD "" ≠ "" →
      (mget? ix.stopToStation row.stop_id).getD "" ≠ "" →
      (∀ r, mget? ix.routeMap ((mget? ix.tripToRoute row.trip_id).getD "") =
        some r → r.routeType = "") →
      (aggStep true ix st row).stationRoutes =
        addRoute st.stationRoutes ((mget? ix.stopToStation row.stop_id).getD "")
          ((mget? ix.tripToRoute row.trip_id).getD "")) ∧
    (∀ (g : GtfsInput) (rid : String) (r : RouteInfo),
      mget? (mkIndices g).routeMap rid = some r →
      r.routeType ≠ "" → r.routeType ≠ "1" →
      ∀ p ∈ (buildAgg true (mkIndices g) g.stopTimes).stationRoutes,
        rid ∉ p.2) := by
  refine ⟨?_, ?_, ?_⟩
  · intro ix st row r hm h3 h4 hr ht1 ht2
    have hskip : subwaySkipB ix.routeMap
        ((mget? ix.tripToRoute row.trip_id).getD "") = true := by
      unfold subwaySkipB
      rw [hr]
      simp [ht1, ht2]
    rw [aggStep_filtered true ix st row hm h3 h4 (by rw [hskip]; rfl)]
  · intro ix st row hm h3 h4 hr
    have hskip : subwaySkipB ix.routeMap
        ((mget? ix.tripToRoute row.trip_id).getD "") = false := by
      unfold subwaySkipB
      cases hf : mget? ix.routeMap ((mget? ix.tripToRoute row.trip_id).getD "") with
      | none => rfl
      | some r =>
        have := hr r hf
        simp [this]
    rw [aggStep_insert true ix st row hm h3 h4 (by rw [hskip]; rfl)]
  · intro g rid r hr ht1 ht2 p hp hmem
    have hinv := buildAgg_inv true (mkIndices g) g.stopTimes p hp
    have hok := (hinv.2.2.2 rid hmem).2.2 rfl
    unfold subwaySkipB at hok
    rw [hr] at hok
    simp [ht1, ht2] at hok

/-- C4 witness: the three parts applied to one-route indices — a known
non-subway route is skipped, a blank-classified route is inserted, and the
non-subway route "R" is in no route set of the bus feed's aggregation. -/
theorem claim4_subway_filter_witness :
    (aggStep true ixNonSubway ⟨[], 0, 0, 0⟩ ⟨"t", "s"⟩).stationRoutes =
      (⟨[], 0, 0, 0⟩ : AggState).stationRoutes ∧
    (aggStep true ixBlankType ⟨[], 0, 0, 0⟩ ⟨"t", "s"⟩).stationRoutes =
      addRoute (⟨[], 0, 0, 0⟩ : AggState).stationRoutes
        ((mget? ixBlankType.stopToStation "s").getD "")
        ((mget? ixBlankType.tripToRoute "t").getD "") ∧
    ∀ p ∈ (buildAgg true (mkIndices busInput) busInput.stopTimes).stationRoutes,
      "R" ∉ p.2 :=
  ⟨claim4_subway_filter.1 ixNonSubway ⟨[], 0, 0, 0⟩ ⟨"t", "s"⟩ ⟨"R", "", "2"⟩
      (by decide) (by decide) (by decide) (by decide) (by decide) (by decide),
   claim4_subway_filter.2.1 ixBlankType ⟨[], 0, 0, 0⟩ ⟨"t", "s"⟩
      (by decide) (by decide) (by decide) (by decide),
   claim4_subway_filter.2.2 busInput "R" ⟨"R", "", "2"⟩
      (by decide) (by decide) (by decide)⟩

/-- C5: a stop-time row whose trip id is unknown to the Trip-to-Route Index
(resp. whose stop id is unknown to the Stop Resolver) leaves the output
unchanged and only increments the orphan-trip (resp. orphan-stop) counter;
the two kinds are counted separately and the run completes. -/
theorem claim5_orphans :
    (∀ (os : Bool) (g : GtfsInput) (pre post : List StopTimeRow)
      (row : StopTimeRow),
      row.trip_id ≠ "" → row.stop_id ≠ "" →
      mget? (mkIndices g).tripToRoute row.trip_id = none →
      pipeline os { g with stopTimes := pre ++ row :: post } =
        pipeline os { g with stopTimes := pre ++ post } ∧
      (buildAgg os (mkIndices g) (pre ++ row :: post)).missedTrips =
        (buildAgg os (mkIndices g) (pre ++ post)).missedTrips + 1 ∧
      (buildAgg os (mkIndices g) (pre ++ row :: post)).missedStops =
        (buildAgg os (mkIndices g) (pre ++ post)).missedStops) ∧
    (∀ (os : Bool) (g : GtfsInput) (pre post : List StopTimeRow)
      (row : StopTimeRow),
      row.trip_id ≠ "" → row.stop_id ≠ "" →
      (mget? (mkIndices g).tripToRoute row.trip_id).getD "" ≠ "" →
      mget? (mkIndices g).stopToStation row.stop_id = none →
      pipeline os { g with stopTimes := pre ++ row :: post } =
        pipeline os { g with stopTimes := pre ++ post } ∧
      (buildAgg os (mkIndices g) (pre ++ row :: post)).missedStops =
        (buildAgg os (mkIndices g) (pre ++ post)).missedStops + 1 ∧
      (buildAgg os (mkIndices g) (pre ++ row :: post)).missedTrips =
        (buildAgg os (mkIndices g) (pre ++ post)).missedTrips) := by
  have hroutes : ∀ (os : Bool) (ix : Indices) (pre post : List StopTimeRow)
      (row : StopTimeRow),
      (aggStep os ix (pre.foldl (aggStep os ix) ⟨[], 0, 0, 0⟩) row).stationRoutes =
        (pre.foldl (aggStep os ix) ⟨[], 0, 0, 0⟩).stationRoutes →
      (buildAgg os ix (pre ++ row :: post)).stationRoutes =
        (buildAgg os ix (pre ++ post)).stationRoutes := by
    intro os ix pre post row hstep
    unfold buildAgg
    rw [List.foldl_append, List.foldl_append, List.foldl_cons]
    exact foldAgg_routes_congr os ix post _ _ hstep
  constructor
  · intro os g pre post row h1 h2 h3
    have horph : isOrphanTripB (mkIndices g) row = true := by
      unfold isOrphanTripB
      simp [h1, h2, h3]
    have hgetd : (mget? (mkIndices g).tripToRoute row.trip_id).getD "" = "" := by
      rw [h3]; rfl
    have hsr : (buildAgg os (mkIndices g) (pre ++ row :: post)).stationRoutes =
        (buildAgg os (mkIndices g) (pre ++ post)).stationRoutes := by
      apply hroutes
      rw [aggStep_orphanTrip os (mkIndices g) _ row
        (by push_neg; exact ⟨h1, h2⟩) hgetd]
    refine ⟨?_, ?_, ?_⟩
    · show assemble (mkIndices g).routeMap (mkIndices g).stationName
        (buildAgg os (mkIndices g) (pre ++ row :: post)).stationRoutes =
        assemble (mkIndices g).routeMap (mkIndices g).stationName
        (buildAgg os (mkIndices g) (pre ++ post)).stationRoutes
      rw [hsr]
    · unfold buildAgg
      rw [foldAgg_missedTrips, foldAgg_missedTrips, List.countP_append,
        List.countP_append, List.countP_cons, horph, if_pos rfl]
      omega
    · unfold buildAgg
      rw [foldAgg_missedStops, foldAgg_missedStops, List.countP_append,
        List.countP_append, List.countP_cons]
      have hnot : isOrphanStopB (mkIndices g) row = false := by
        unfold isOrphanStopB
        simp [hgetd]
      rw [hnot, if_neg (by decide)]
      omega
  · intro os g pre post row h1 h2 h3 h4
    have hgetd : (mget? (mkIndices g).stopToStation row.stop_id).getD "" = "" := by
      rw [h4]; rfl
    have horph : isOrphanStopB (mkIndices g) row = true := by
      unfold isOrphanStopB
      simp [h1, h2, h3, hgetd]
    have hsr : (buildAgg os (mkIndices g) (pre ++ row :: post)).stationRoutes =
        (buildAgg os (mkIndices g) (pre ++ post)).stationRoutes := by
      apply hroutes
      rw [aggStep_orphanStop os (mkIndices g) _ row
        (by push_neg; exact ⟨h1, h2⟩) h3 hgetd]
    refine ⟨?_, ?_, ?_⟩
    · show assemble (mkIndices g).routeMap (mkIndices g).stationName
        (buildAgg os (mkIndices g) (pre ++ row :: post)).stationRoutes =
        assemble (mkIndices g).routeMap (mkIndices g).stationName
        (buildAgg os (mkIndices g) (pre ++ post)).stationRoutes
      rw [hsr]
    · unfold buildAgg
      rw [foldAgg_missedStops, foldAgg_missedStops, List.countP_append,
        List.countP_append, List.countP_cons, horph, if_pos rfl]
      omega
    · unfold buildAgg
      rw [foldAgg_missedTrips, foldAgg_missedTrips, List.countP_append,
        List.countP_append, List.countP_cons]
      have hnot : isOrphanTripB (mkIndices g) row = false := by
        unfold isOrphanTripB
        simp [h3]
      rw [hnot, if_neg (by decide)]
      omega

/-- C5 witness: inserting the orphan-trip row (tX, 101N), resp. the
orphan-stop row (t1, sX), into the example feed changes no output and bumps
exactly the corresponding counter. -/
theorem claim5_orphans_witness :
    (pipeline false { wInput with stopTimes := [] ++ ⟨"tX", "101N"⟩ :: [⟨"t1", "101N"⟩] } =
        pipeline false { wInput with stopTimes := [] ++ [⟨"t1", "101N"⟩] } ∧
      (buildAgg false (mkIndices wInput) ([] ++ ⟨"tX", "101N"⟩ :: [⟨"t1", "101N"⟩])).missedTrips =
        (buildAgg false (mkIndices wInput) ([] ++ [⟨"t1", "101N"⟩])).missedTrips + 1 ∧
      (buildAgg false (mkIndices wInput) ([] ++ ⟨"tX", "101N"⟩ :: [⟨"t1", "101N"⟩])).missedStops =
        (buildAgg false (mkIndices wInput) ([] ++ [⟨"t1", "101N"⟩])).missedStops) ∧
    (pipeline false { wInput with stopTimes := [] ++ ⟨"t1", "sX"⟩ :: [⟨"t1", "101N"⟩] } =
        pipeline false { wInput with stopTimes := [] ++ [⟨"t1", "101N"⟩] } ∧
      (buildAgg false (mkIndices wInput) ([] ++ ⟨"t1", "sX"⟩ :: [⟨"t1", "101N"⟩])).missedStops =
        (buildAgg false (mkIndices wInput) ([] ++ [⟨"t1", "101N"⟩])).missedStops + 1 ∧
      (buildAgg false (mkIndices wInput) ([] ++ ⟨"t1", "sX"⟩ :: [⟨"t1", "101N"⟩])).missedTrips =
        (buildAgg false (mkIndices wInput) ([] ++ [⟨"t1", "101N"⟩])).missedTrips) :=
  ⟨claim5_orphans.1 false wInput [] [⟨"t1", "101N"⟩] ⟨"tX", "101N"⟩
      (by decide) (by decide) (by decide),
   claim5_orphans.2 false wInput [] [⟨"t1", "101N"⟩] ⟨"t1", "sX"⟩
      (by decide) (by decide) (by decide) (by decide)⟩

/-- C6 counterexample: skipped malformed rows are NOT counted — a trips table
consisting of one row with an empty trip_id yields a surfaced count of 0 (the
count tracks loaded rows only), and a stop-time row missing both keys bumps
only the raw row total, leaving both surfaced warning counters at 0; the
loaders of stops and routes surface no count at all. -/
theorem claim6_counterexample :
    (loadTripsToRoute [⟨"", "r1"⟩]).count = 0 ∧
    (buildAgg false ⟨[], [], [], []⟩ [⟨"", ""⟩]).rows = 1 ∧
    (buildAgg false ⟨[], [], [], []⟩ [⟨"", ""⟩]).missedTrips = 0 ∧
    (buildAgg false ⟨[], [], [], []⟩ [⟨"", ""⟩]).missedStops = 0 := by decide

/-- C6 (amended): a row missing a required key field is skipped without
aborting — it leaves the loader state unchanged, and in the stop-time pass
changes only the raw row total — but no malformed-row summary exists: the
trips loader's surfaced count counts exactly the loaded (well-formed) rows,
not the skipped ones. -/
theorem claim6_amended :
    (∀ (st : TripsResult) (row : TripRow),
      row.trip_id = "" ∨ row.route_id = "" → loadTripsStep st row = st) ∧
    (∀ (st : StopsState) (row : StopRow), row.stop_id = "" →
      loadStopsStep st row = st) ∧
    (∀ (m : List (String × RouteInfo)) (row : RouteRow), row.route_id = "" →
      loadRoutesStep m row = m) ∧
    (∀ (os : Bool) (ix : Indices) (st : AggState) (row : StopTimeRow),
      row.trip_id = "" ∨ row.stop_id = "" →
      aggStep os ix st row = { st with rows := st.rows + 1 }) ∧
    (∀ rows : List TripRow, (loadTripsToRoute rows).count =
      rows.countP (fun row => !(row.trip_id == "") && !(row.route_id == ""))) := by
  refine ⟨?_, ?_, ?_, ?_, ?_⟩
  · intro st row h
    unfold loadTripsStep
    rw [if_pos h]
  · intro st row h
    unfold loadStopsStep
    rw [if_pos h]
  · intro m row h
    unfold loadRoutesStep
    rw [if_pos h]
  · intro os ix st row h
    exact aggStep_malformed os ix st row h
  · intro rows
    unfold loadTripsToRoute
    rw [loadTrips_count_aux]
    simp

/-- C6 witness: the amended statement applied to concrete malformed rows. -/
theorem claim6_amended_witness :
    loadTripsStep ⟨[], 0⟩ ⟨"", "r"⟩ = ⟨[], 0⟩ ∧
    loadStopsStep ⟨[], []⟩ ⟨"", "Name", "P"⟩ = ⟨[], []⟩ ∧
    loadRoutesStep [] ⟨"", "s", "l", "1"⟩ = [] ∧
    aggStep false ⟨[], [], [], []⟩ ⟨[], 0, 0, 0⟩ ⟨"", "s"⟩ =
      { (⟨[], 0, 0, 0⟩ : AggState) with
        rows := (⟨[], 0, 0, 0⟩ : AggState).rows + 1 } ∧
    (loadTripsToRoute [⟨"t", "r"⟩, ⟨"", "r"⟩]).count =
      [(⟨"t", "r"⟩ : TripRow), ⟨"", "r"⟩].countP
        (fun row => !(row.trip_id == "") && !(row.route_id == "")) :=
  ⟨claim6_amended.1 ⟨[], 0⟩ ⟨"", "r"⟩ (Or.inl rfl),
   claim6_amended.2.1 ⟨[], []⟩ ⟨"", "Name", "P"⟩ rfl,
   claim6_amended.2.2.1 [] ⟨"", "s", "l", "1"⟩ rfl,
   claim6_amended.2.2.2.1 false ⟨[], [], [], []⟩ ⟨[], 0, 0, 0⟩ ⟨"", "s"⟩ (Or.inl rfl),
   claim6_amended.2.2.2.2 [⟨"t", "r"⟩, ⟨"", "r"⟩]⟩

/-- C7: if a required source file is missing, the run exits with code 1,
writes no output, and reports an error message naming a missing required
file; with all four files present the run exits 0 with the pipeline output. -/
theorem claim7_preflight :
    (∀ (present : List String) (dir : String) (os : Bool) (g : GtfsInput)
      (f : String), f ∈ requiredFiles → f ∉ present →
      (run present dir os g).exitCode = 1 ∧
      (run present dir os g).output = none ∧
      ∃ f2, f2 ∈ requiredFiles ∧ f2 ∉ present ∧
        (run present dir os g).errMsg =
          some ("Missing " ++ f2 ++ " at: " ++ dir ++ "/" ++ f2)) ∧
    (∀ (present : List String) (dir : String) (os : Bool) (g : GtfsInput),
      (∀ f ∈ requiredFiles, f ∈ present) →
      run present dir os g = ⟨0, none, some (pipeline os g)⟩) := by
  constructor
  · intro present dir os g f hf hnp
    cases hfind : requiredFiles.find? (fun f => !(present.contains f)) with
    | none =>
      rw [List.find?_eq_none] at hfind
      have := hfind f hf
      simp at this
      exact absurd this hnp
    | some f2 =>
      have hf2mem : f2 ∈ requiredFiles := List.mem_of_find?_eq_some hfind
      have hf2pred := List.find?_some hfind
      have hf2np : f2 ∉ present := by simpa using hf2pred
      refine ⟨?_, ?_, f2, hf2mem, hf2np, ?_⟩ <;> (unfold run; rw [hfind])
  · intro present dir os g hall
    have hfind : requiredFiles.find? (fun f => !(present.contains f)) = none := by
      rw [List.find?_eq_none]
      intro f hf
      simp [hall f hf]
    unfold run
    rw [hfind]

/-- C7 witness: with only stops.txt present the run fails with exit code 1,
no output, and a message naming a missing file; with all four required files
present it succeeds with exit code 0. -/
theorem claim7_preflight_witness :
    ((run ["stops.txt"] "gtfs" false wInput).exitCode = 1 ∧
     (run ["stops.txt"] "gtfs" false wInput).output = none ∧
     ∃ f2, f2 ∈ requiredFiles ∧ f2 ∉ ["stops.txt"] ∧
       (run ["stops.txt"] "gtfs" false wInput).errMsg =
         some ("Missing " ++ f2 ++ " at: " ++ "gtfs" ++ "/" ++ f2)) ∧
    run requiredFiles "gtfs" false wInput = ⟨0, none, some (pipeline false wInput)⟩ :=
  ⟨claim7_preflight.1 ["stops.txt"] "gtfs" false wInput "routes.txt"
      (by decide) (by decide),
   claim7_preflight.2 requiredFiles "gtfs" false wInput (fun f hf => hf)⟩

/-- C8: the output list is sorted by canonical name case-insensitively, no
station id appears twice, every output id derives from a stop row of the
input, and every station visited by at least one resolvable stop-time event
appears exactly once. -/
theorem claim8_output_shape (g : GtfsInput) (os : Bool) :
    ((pipeline os g).map Station.id).Nodup ∧
    (pipeline os g).Pairwise stationLe ∧
    (∀ s ∈ pipeline os g, ∃ row ∈ g.stops, row.stop_id ≠ "" ∧
      s.id = stationIdOf row) ∧
    (∀ (row : StopTimeRow) (sid : String), row ∈ g.stopTimes →
      row.trip_id ≠ "" → row.stop_id ≠ "" →
      (mget? (mkIndices g).tripToRoute row.trip_id).getD "" ≠ "" →
      (mget? (mkIndices g).stopToStation row.stop_id).getD "" = sid →
      sid ≠ "" →
      (os && subwaySkipB (mkIndices g).routeMap
        ((mget? (mkIndices g).tripToRoute row.trip_id).getD "")) = false →
      ((pipeline os g).filter (fun s => s.id == sid)).length = 1) := by
  have hperm : ((pipeline os g).map Station.id).Perm
      (mkeys (buildAgg os (mkIndices g) g.stopTimes).stationRoutes) :=
    assemble_ids_perm (mkIndices g).routeMap (mkIndices g).stationName
      (buildAgg os (mkIndices g) g.stopTimes).stationRoutes
  have hnd : ((pipeline os g).map Station.id).Nodup :=
    hperm.nodup_iff.mpr (buildAgg_keys_nodup os (mkIndices g) g.stopTimes)
  refine ⟨hnd, ?_, ?_, ?_⟩
  · exact List.sorted_insertionSort stationLe _
  · intro s hs
    simp only [pipeline] at hs
    rcases mem_assemble hs with ⟨p, hp, hse⟩
    have hinv := buildAgg_inv os (mkIndices g) g.stopTimes p hp
    rcases hinv.1.2 with ⟨src, hsrc⟩
    rcases mget?_mem hsrc with ⟨k, hk⟩
    rcases loadStops_stopToStation_spec g.stops (k, p.1) hk with
      ⟨row, hrow, hrid, _, hsidOf⟩
    refine ⟨row, hrow, hrid, ?_⟩
    rw [hse, assembleStation_id]
    exact hsidOf
  · intro row sid hrow h1 h2 h3 h4 h5 h6
    have hsid : sid ∈ mkeys (buildAgg os (mkIndices g) g.stopTimes).stationRoutes :=
      buildAgg_visited os (mkIndices g) g.stopTimes row sid hrow h1 h2 h3 h4 h5 h6
    have hmem : sid ∈ (pipeline os g).map Station.id := hperm.mem_iff.mpr hsid
    have hcount : List.count sid ((pipeline os g).map Station.id) = 1 :=
      List.count_eq_one_of_mem hnd hmem
    rw [← List.countP_eq_length_filter]
    rw [List.count, List.countP_map] at hcount
    exact hcount

/-- C8 witness: on the end-to-end feed the output ids are duplicate-free, the
list is name-sorted, station "101" derives from a stop row, and the station
visited by the resolvable row (t1, 101N) appears exactly once. -/
theorem claim8_output_shape_witness :
    ((pipeline false wInput).map Station.id).Nodup ∧
    (pipeline false wInput).Pairwise stationLe ∧
    (∃ row ∈ wInput.stops, row.stop_id ≠ "" ∧
      (Station.mk "101" "Grand Ave" ["Q"]).id = stationIdOf row) ∧
    ((pipeline false wInput).filter (fun s => s.id == "101")).length = 1 :=
  ⟨(claim8_output_shape wInput false).1,
   (claim8_output_shape wInput false).2.1,
   (claim8_output_shape wInput false).2.2.1 ⟨"101", "Grand Ave", ["Q"]⟩ (by decide),
   (claim8_output_shape wInput false).2.2.2 ⟨"t1", "101N"⟩ "101" (by decide)
      (by decide) (by decide) (by decide) (by decide) (by decide) (by decide)⟩

/-- C9: an output station whose id has no recorded canonical name, or an
empty recorded name, is named by its id; output names are never empty. -/
theorem claim9_name_fallback (g : GtfsInput) (os : Bool) :
    ∀ s ∈ pipeline os g,
      s.name ≠ "" ∧
      ((mget? (mkIndices g).stationName s.id = none ∨
        mget? (mkIndices g).stationName s.id = some "") → s.name = s.id) := by
  intro s hs
  simp only [pipeline] at hs
  rcases mem_assemble hs with ⟨p, hp, hse⟩
  have hinv := buildAgg_inv os (mkIndices g) g.stopTimes p hp
  have hidne : p.1 ≠ "" := hinv.1.1
  have hid : s.id = p.1 := by rw [hse, assembleStation_id]
  constructor
  · rw [hse, assembleStation_name]
    cases hf : mget? (mkIndices g).stationName p.1 with
    | none => simpa using hidne
    | some n =>
      by_cases hn : n = ""
      · simpa [hn] using hidne
      · simp [hn]
  · intro hor
    rw [hid] at hor
    rw [hse, assembleStation_name, assembleStation_id]
    rcases hor with hf | hf
    · simp [hf]
    · simp [hf]

/-- C9 witness: the fallback statement applied to the end-to-end feed's
single output station. -/
theorem claim9_name_fallback_witness :
    (Station.mk "101" "Grand Ave" ["Q"]).name ≠ "" ∧
    ((mget? (mkIndices wInput).stationName (Station.mk "101" "Grand Ave" ["Q"]).id =
        none ∨
      mget? (mkIndices wInput).stationName (Station.mk "101" "Grand Ave" ["Q"]).id =
        some "") →
      (Station.mk "101" "Grand Ave" ["Q"]).name =
        (Station.mk "101" "Grand Ave" ["Q"]).id) :=
  claim9_name_fallback wInput false ⟨"101", "Grand Ave", ["Q"]⟩ (by decide)

/-- C10: every output station has a non-empty `lines` list whose elements are
all non-empty strings. -/
theorem claim10_lines_nonempty (g : GtfsInput) (os : Bool) :
    ∀ s ∈ pipeline os g, s.lines ≠ [] ∧ ∀ c ∈ s.lines, c ≠ "" := by
  intro s hs
  simp only [pipeline] at hs
  rcases mem_assemble hs with ⟨p, hp, hse⟩
  have hinv := buildAgg_inv os (mkIndices g) g.stopTimes p hp
  have hrm : ∀ q ∈ (mkIndices g).routeMap, q.2.shortName ≠ "" :=
    fun q hq => (loadRoutes_spec g.routes q hq).2
  have hrids : ∀ rid ∈ p.2, rid ≠ "" := fun rid hrid => (hinv.2.2.2 rid hrid).1
  constructor
  · rw [hse, assembleStation_lines]
    intro hnil
    have hperm := List.perm_insertionSort natLe (dedupFirst
      ((p.2.map (resolveCode (mkIndices g).routeMap)).filter (fun c => c != "")))
    rw [hnil] at hperm
    have hd := hperm.symm.eq_nil
    have hfilter : (p.2.map (resolveCode (mkIndices g).routeMap)).filter
        (fun c => c != "") = p.2.map (resolveCode (mkIndices g).routeMap) := by
      rw [List.filter_eq_self]
      intro c hc
      rcases List.mem_map.mp hc with ⟨rid, hrid, he⟩
      have hcne : c ≠ "" :=
        he ▸ resolveCode_ne_empty _ hrm rid (hrids rid hrid)
      simpa using hcne
    rw [hfilter] at hd
    have hmapne : p.2.map (resolveCode (mkIndices g).routeMap) ≠ [] := by
      intro hq
      exact hinv.2.1 (List.map_eq_nil_iff.mp hq)
    exact dedupFirst_ne_nil hmapne hd
  · intro c hc
    rw [hse, assembleStation_lines] at hc
    have hc2 := (List.perm_insertionSort natLe _).mem_iff.mp hc
    rw [mem_dedupFirst] at hc2
    have hc3 := List.mem_filter.mp hc2
    simpa using hc3.2

/-- C10 witness: the single station of the end-to-end feed has the non-empty
list ["Q"] of non-empty codes. -/
theorem claim10_lines_nonempty_witness :
    (Station.mk "101" "Grand Ave" ["Q"]).lines ≠ [] ∧
    ∀ c ∈ (Station.mk "101" "Grand Ave" ["Q"]).lines, c ≠ "" :=
  claim10_lines_nonempty wInput false ⟨"101", "Grand Ave", ["Q"]⟩ (by decide)

end MtaProxy
